import Mathlib

/-!
Verification of the PDF-catalog extraction pipeline (AiAgent-PDFExtractor).

This file shallowly embeds the parts of the Python sources that the checked
properties are about:

* `src/ai_analyzer.py` — provider detection from credentials, the DeepSeek
  response handling, markdown-fence stripping, JSON repair and parsing, and
  the sentinel documents (`_no_ai_configured`, the "Extraction Error" result).
* `src/universal_extractor.py` — per-page multi-method extraction and the
  page-numbering / `has_content` invariants.
* `src/translator.py` — the best-effort translation stage, including the
  in-place tagging of the input dictionary on failure paths.

Python dictionaries/lists produced by `json.loads` are modelled by the `Json`
inductive below; `json.loads` itself is embedded as a fuel-indexed recursive
descent parser that follows CPython's `json` module semantics (strict mode:
no trailing commas, no raw control characters in strings, `NaN`/`Infinity`
accepted, numbers kept as their literal text since no claim computes with
them).  Stateful Python code is embedded by explicit value passing: the
translator's mutation of its argument is exposed by returning the pair
(result, argument after the call).  Network and SDK calls are stubbed by an
explicit outcome argument (the transport's answer), since the code under
test only branches on that answer.
-/

namespace PdfExtractor

/-! ## Python string/regex helpers

`pyWs` is the ASCII part of the `\s` class used by the repair regexes
`,\s*}` / `,\s*]` and of the characters `str.strip()` removes (the claims
only exercise ASCII whitespace). -/

def pyWs (c : Char) : Bool :=
  c == ' ' || c == '\t' || c == '\n' || c == '\r' || c == '\x0b' || c == '\x0c'

/-- Model of `str.strip()` on a character list. -/
def pyStripL (cs : List Char) : List Char :=
  ((cs.dropWhile pyWs).reverse.dropWhile pyWs).reverse

/-- Model of `str.strip()`. -/
def pyStrip (s : String) : String := String.mk (pyStripL s.data)

/-- Model of `text[:n]` (Python slice truncation). -/
def pyTake (n : Nat) (s : String) : String := String.mk (s.data.take n)

/-- Split a character list at the first occurrence of `pat`, returning the
text before the occurrence and the text after it.  `none` when `pat` does
not occur.  This is the semantics of anchoring a regex at the first position
where its literal part matches. -/
def splitOnceAfter (pat : List Char) : List Char → Option (List Char × List Char)
  | [] => if pat.isEmpty then some ([], []) else none
  | c :: cs =>
    if pat.isPrefixOf (c :: cs) then some ([], (c :: cs).drop pat.length)
    else
      match splitOnceAfter pat cs with
      | some (b, a) => some (c :: b, a)
      | none => none

/-- Split at the last occurrence of `pat` (the semantics of a greedy `(.*)`
followed by the literal `pat`). -/
def splitLastOn (pat : List Char) (cs : List Char) : Option (List Char × List Char) :=
  match splitOnceAfter pat.reverse cs.reverse with
  | some (b, a) => some (a.reverse, b.reverse)
  | none => none

/-- Model of Python's `pat in s` substring test. -/
def containsSeq (pat : List Char) (cs : List Char) : Bool :=
  (splitOnceAfter pat cs).isSome

def fenceJsonPat : List Char := ("```json").data

def fencePat : List Char := ("```").data

/-- Fence stripping as `_analyze_with_deepseek` does it (ai_analyzer.py
lines 157-165): if `'```json' in text`, apply the search
`'```json\s*(.*?)\s*```'` and keep `group(1).strip()`; else if
`'```' in text`, the same with the plain fence; a failed search leaves the
text unchanged.  The lazy `(.*?)` capture (with the surrounding `\s*` and the
final `.strip()`) amounts to: take the text between the end of the first
fence marker and the next occurrence of a closing fence, stripped. -/
def stripCodeFence (s : String) : String :=
  let cs := s.data
  if containsSeq fenceJsonPat cs then
    match splitOnceAfter fenceJsonPat cs with
    | some (_, tail) =>
      match splitOnceAfter fencePat tail with
      | some (inner, _) => String.mk (pyStripL inner)
      | none => s
    | none => s
  else if containsSeq fencePat cs then
    match splitOnceAfter fencePat cs with
    | some (_, tail) =>
      match splitOnceAfter fencePat tail with
      | some (inner, _) => String.mk (pyStripL inner)
      | none => s
    | none => s
  else s

/-- Fence stripping as the translator does it (translator.py lines 91-98):
the same searches but with a greedy `(.*)`, so the capture extends to the
last closing fence of the remaining text. -/
def stripCodeFenceGreedy (s : String) : String :=
  let cs := s.data
  if containsSeq fenceJsonPat cs then
    match splitOnceAfter fenceJsonPat cs with
    | some (_, tail) =>
      match splitLastOn fencePat tail with
      | some (inner, _) => String.mk (pyStripL inner)
      | none => s
    | none => s
  else if containsSeq fencePat cs then
    match splitOnceAfter fencePat cs with
    | some (_, tail) =>
      match splitLastOn fencePat tail with
      | some (inner, _) => String.mk (pyStripL inner)
      | none => s
    | none => s
  else s

/-! ## The JSON repair pass

`_parse_ai_response` (ai_analyzer.py lines 444-451) repairs a failed parse
with `re.sub(r',\s*}', '}', t)` followed by `re.sub(r',\s*]', ']', t)`.
`re.sub` scans left to right, non-overlapping, resuming after each
replacement; each match deletes a comma together with the whitespace
separating it from the closing bracket.  `dropTrailingCommas` is that scan:
the `Bool` is the state "a matched comma was just deleted, its trailing
whitespace is still being consumed". -/

def closeAhead (close : Char) (cs : List Char) : Bool :=
  match cs.dropWhile pyWs with
  | c :: _ => c == close
  | [] => false

def dropTrailingCommas (close : Char) : Bool → List Char → List Char
  | _, [] => []
  | false, c :: cs =>
    if c == ',' && closeAhead close cs then dropTrailingCommas close true cs
    else c :: dropTrailingCommas close false cs
  | true, c :: cs =>
    if pyWs c then dropTrailingCommas close true cs
    else c :: dropTrailingCommas close false cs

/-- Both substitution passes, in source order (`,\s*}` first, then `,\s*]`). -/
def pyRepair (cs : List Char) : List Char :=
  dropTrailingCommas ']' false (dropTrailingCommas '\x7d' false cs)

/-! ## JSON values and `json.loads`

`Json` models the Python values `json.loads` builds.  Number literals are
kept as text: no claim computes with a number, and this keeps the embedding
exact (Python would build floats). -/

inductive Json where
  | null
  | bool (b : Bool)
  | num (lit : String)
  | str (s : String)
  | arr (items : List Json)
  | obj (fields : List (String × Json))

/-- First-match lookup in an object's field list (our documents carry no
duplicate keys, so this is Python's `dict` lookup). -/
def lookupField : List (String × Json) → String → Option Json
  | [], _ => none
  | (k', v) :: fs, k => if k' == k then some v else lookupField fs k

/-- Model of `d.get(k)` / `d[k]` on a decoded object. -/
def jGet (j : Json) (k : String) : Option Json :=
  match j with
  | Json.obj fs => lookupField fs k
  | _ => none

def jsonWs (c : Char) : Bool :=
  c == ' ' || c == '\t' || c == '\n' || c == '\r'

def skipJsonWs (cs : List Char) : List Char := cs.dropWhile jsonWs

def digitChar (c : Char) : Bool := '0' ≤ c && c ≤ '9'

def hexDigit (c : Char) : Option Nat :=
  let n := c.toNat
  if 0x2f < n ∧ n < 0x3a then some (n - 0x30)
  else if 0x60 < n ∧ n < 0x67 then some (n - 0x57)
  else if 0x40 < n ∧ n < 0x47 then some (n - 0x37)
  else none

def escChar : Char → Option Char
  | '"' => some '"'
  | '\\' => some '\\'
  | '/' => some '/'
  | 'b' => some '\x08'
  | 'f' => some '\x0c'
  | 'n' => some '\n'
  | 'r' => some '\r'
  | 't' => some '\t'
  | _ => none

/-- The body of a JSON string after its opening quote, strict mode: raw
control characters are rejected, the standard escapes and `\uXXXX` are
decoded (surrogate pairing is not modelled; no claim exercises it). -/
def parseQuotedL : List Char → Option (List Char × List Char)
  | [] => none
  | c :: cs =>
    if c == '"' then some ([], cs)
    else if c == '\\' then
      match cs with
      | [] => none
      | e :: cs2 =>
        if e == 'u' then
          match cs2 with
          | h1 :: h2 :: h3 :: h4 :: cs3 =>
            match hexDigit h1, hexDigit h2, hexDigit h3, hexDigit h4 with
            | some a, some b, some x, some d =>
              match parseQuotedL cs3 with
              | some (body, rest) =>
                some (Char.ofNat (((a * 16 + b) * 16 + x) * 16 + d) :: body, rest)
              | none => none
            | _, _, _, _ => none
          | _ => none
        else
          match escChar e with
          | some ch =>
            match parseQuotedL cs2 with
            | some (body, rest) => some (ch :: body, rest)
            | none => none
          | none => none
    else if c.toNat < 0x20 then none
    else
      match parseQuotedL cs with
      | some (body, rest) => some (c :: body, rest)
      | none => none

/-- A number literal, as CPython's `NUMBER_RE`
`(-?(?:0|[1-9]\d*))(\.\d+)?([eE][-+]?\d+)?`: the matched text and the rest.
A bare minus sign, a leading zero followed by digits, or a dot/exponent
without digits simply ends the match early, exactly as the regex does. -/
def parseNumberL (cs : List Char) : Option (List Char × List Char) :=
  let (sgn, cs1) := match cs with
    | '-' :: r => (['-'], r)
    | _ => (([] : List Char), cs)
  match cs1 with
  | '0' :: r =>
    let (fr, r2) := match r with
      | '.' :: r1 =>
        if (r1.takeWhile digitChar).isEmpty then (([] : List Char), '.' :: r1)
        else ('.' :: r1.takeWhile digitChar, r1.dropWhile digitChar)
      | _ => (([] : List Char), r)
    let (ex, r3) := match r2 with
      | e :: r1 =>
        if e == 'e' || e == 'E' then
          let (sc, rs) := match r1 with
            | '+' :: rr => (['+'], rr)
            | '-' :: rr => (['-'], rr)
            | _ => (([] : List Char), r1)
          if (rs.takeWhile digitChar).isEmpty then (([] : List Char), e :: r1)
          else (e :: (sc ++ rs.takeWhile digitChar), rs.dropWhile digitChar)
        else (([] : List Char), e :: r1)
      | [] => (([] : List Char), ([] : List Char))
    some (sgn ++ '0' :: (fr ++ ex), r3)
  | c :: r =>
    if digitChar c then
      let ip := c :: r.takeWhile digitChar
      let r1 := r.dropWhile digitChar
      let (fr, r2) := match r1 with
        | '.' :: rr =>
          if (rr.takeWhile digitChar).isEmpty then (([] : List Char), '.' :: rr)
          else ('.' :: rr.takeWhile digitChar, rr.dropWhile digitChar)
        | _ => (([] : List Char), r1)
      let (ex, r3) := match r2 with
        | e :: rr =>
          if e == 'e' || e == 'E' then
            let (sc, rs) := match rr with
              | '+' :: rv => (['+'], rv)
              | '-' :: rv => (['-'], rv)
              | _ => (([] : List Char), rr)
            if (rs.takeWhile digitChar).isEmpty then (([] : List Char), e :: rr)
            else (e :: (sc ++ rs.takeWhile digitChar), rs.dropWhile digitChar)
          else (([] : List Char), e :: rr)
        | [] => (([] : List Char), ([] : List Char))
      some (sgn ++ ip ++ fr ++ ex, r3)
    else none
  | [] => none

mutual

/-- One JSON value, CPython `scan_once` semantics: the caller has already
skipped whitespace; containers skip whitespace around their own tokens.
Structural on the fuel, which `loadsL` supplies large enough for any input
(every recursive call first consumes at least one character). -/
def parseVal : Nat → List Char → Option (Json × List Char)
  | 0, _ => none
  | fuel + 1, cs =>
    match cs with
    | [] => none
    | '"' :: r =>
      match parseQuotedL r with
      | some (body, rest) => some (Json.str (String.mk body), rest)
      | none => none
    | '\x7b' :: r =>
      match skipJsonWs r with
      | '\x7d' :: r2 => some (Json.obj [], r2)
      | '"' :: r2 =>
        match parseQuotedL r2 with
        | none => none
        | some (kcs, r3) =>
          match skipJsonWs r3 with
          | ':' :: r4 =>
            match parseVal fuel (skipJsonWs r4) with
            | none => none
            | some (v, r5) =>
              match parseObjRest fuel r5 with
              | none => none
              | some (fs, r6) => some (Json.obj ((String.mk kcs, v) :: fs), r6)
          | _ => none
      | _ => none
    | '[' :: r =>
      match skipJsonWs r with
      | ']' :: r2 => some (Json.arr [], r2)
      | r1 =>
        match parseVal fuel r1 with
        | none => none
        | some (v, r2) =>
          match parseArrRest fuel r2 with
          | none => none
          | some (vs, r3) => some (Json.arr (v :: vs), r3)
    | 't' :: r =>
      if ("rue").data.isPrefixOf r then some (Json.bool true, r.drop 3) else none
    | 'f' :: r =>
      if ("alse").data.isPrefixOf r then some (Json.bool false, r.drop 4) else none
    | 'n' :: r =>
      if ("ull").data.isPrefixOf r then some (Json.null, r.drop 3) else none
    | 'N' :: r =>
      if ("aN").data.isPrefixOf r then some (Json.num ("NaN"), r.drop 2) else none
    | 'I' :: r =>
      if ("nfinity").data.isPrefixOf r then some (Json.num ("Infinity"), r.drop 7)
      else none
    | '-' :: r =>
      if ("Infinity").data.isPrefixOf r then some (Json.num ("-Infinity"), r.drop 8)
      else
        match parseNumberL ('-' :: r) with
        | some (lit, rest) => some (Json.num (String.mk lit), rest)
        | none => none
    | c :: r =>
      if digitChar c then
        match parseNumberL (c :: r) with
        | some (lit, rest) => some (Json.num (String.mk lit), rest)
        | none => none
      else none

/-- After one array element: whitespace, then `,` and a further element or
`]`.  A comma must be followed by a value (no trailing commas in strict
mode). -/
def parseArrRest : Nat → List Char → Option (List Json × List Char)
  | 0, _ => none
  | fuel + 1, cs =>
    match skipJsonWs cs with
    | ']' :: r => some ([], r)
    | ',' :: r =>
      match parseVal fuel (skipJsonWs r) with
      | none => none
      | some (v, r2) =>
        match parseArrRest fuel r2 with
        | none => none
        | some (vs, r3) => some (v :: vs, r3)
    | _ => none

/-- After one object member: whitespace, then `,` and a further `"key":
value`, or `}`. -/
def parseObjRest : Nat → List Char → Option (List (String × Json) × List Char)
  | 0, _ => none
  | fuel + 1, cs =>
    match skipJsonWs cs with
    | '\x7d' :: r => some ([], r)
    | ',' :: r =>
      match skipJsonWs r with
      | '"' :: r2 =>
        match parseQuotedL r2 with
        | none => none
        | some (kcs, r3) =>
          match skipJsonWs r3 with
          | ':' :: r4 =>
            match parseVal fuel (skipJsonWs r4) with
            | none => none
            | some (v, r5) =>
              match parseObjRest fuel r5 with
              | none => none
              | some (fs, r6) => some ((String.mk kcs, v) :: fs, r6)
          | _ => none
      | _ => none
    | _ => none

end

/-- Model of `json.loads`: skip leading whitespace, one value, only
whitespace may remain (`Extra data` otherwise).  `none` models a raised
`json.JSONDecodeError`. -/
def loadsL (cs : List Char) : Option Json :=
  let c1 := skipJsonWs cs
  match parseVal (c1.length + 1) c1 with
  | some (v, r) => if (skipJsonWs r).isEmpty then some v else none
  | none => none

def loads (s : String) : Option Json := loadsL s.data

/-! ## `_parse_ai_response` (ai_analyzer.py lines 434-467) -/

/-- The "extraction error" sentinel (lines 454-459), returned when the
completion is not valid JSON even after the repair pass. -/
def extractionErrorDoc : Json :=
  Json.obj
    [ ("product_family", Json.str ("Extraction Error"))
    , ("category", Json.str ("AI Response Invalid"))
    , ("company", Json.obj [])
    , ("products", Json.arr []) ]

/-- Lines 462-467: the fallback of the outer `except Exception` handler.  In
CPython that branch is reachable only through a non-`JSONDecodeError`
exception (such as hitting the interpreter recursion limit); resource
exhaustion is outside this embedding, where `loadsL` is total, so no modelled
path produces this value. -/
def generalParseFallbackDoc : Json :=
  Json.obj
    [ ("product_family", Json.str ("Product Catalog"))
    , ("category", Json.str ("General"))
    , ("company", Json.obj [])
    , ("products", Json.arr []) ]

/-- `_parse_ai_response`: strict parse of the stripped text; on failure the
trailing-comma repair and one retry; on a second failure the "extraction
error" sentinel.  Total: the Python function catches everything. -/
def parseAiResponse (responseText : String) : Json :=
  let jsonText := pyStripL responseText.data
  match loadsL jsonText with
  | some v => v
  | none =>
    match loadsL (pyRepair jsonText) with
    | some v => v
    | none => extractionErrorDoc

/-! ## Provider detection (ai_analyzer.py lines 31-50) -/

inductive Provider where
  | deepseek
  | anthropic
  | huggingface
  | google
  | openai

/-- The credential environment variables the analyzer reads (raw values;
`_detect_available_ai` strips them). -/
structure CredEnv where
  openaiKey : String
  anthropicKey : String
  googleKey : String
  huggingfaceKey : String
  deepseekKey : String

/-- `_detect_available_ai`: each credential is stripped and shape-checked;
the first provider whose check passes, in the fixed priority order
deepseek > anthropic > huggingface > google > openai, is selected.  `none`
when no credential passes. -/
def detectAvailableAi (env : CredEnv) : Option Provider :=
  let openai_key := pyStrip env.openaiKey
  let anthropic_key := pyStrip env.anthropicKey
  let google_key := pyStrip env.googleKey
  let huggingface_key := pyStrip env.huggingfaceKey
  let deepseek_key := pyStrip env.deepseekKey
  if deepseek_key != "" && ("sk-").data.isPrefixOf deepseek_key.data then
    some Provider.deepseek
  else if anthropic_key != "" && ("sk-ant-").data.isPrefixOf anthropic_key.data then
    some Provider.anthropic
  else if huggingface_key != ""
      && (("hf_").data.isPrefixOf huggingface_key.data || huggingface_key.length > 20) then
    some Provider.huggingface
  else if google_key != "" && google_key.length > 20 then
    some Provider.google
  else if openai_key != "" && ("sk-").data.isPrefixOf openai_key.data
      && openai_key.length > 20 then
    some Provider.openai
  else
    none

/-! ## The "AI not configured" sentinel (ai_analyzer.py lines 510-544) -/

def noAiConfiguredProduct : Json :=
  Json.obj
    [ ("name", Json.str ("AI API Key Required"))
    , ("model", Json.str ("N/A"))
    , ("tagline", Json.str ("Add API key to .env file to enable extraction"))
    , ("description", Json.str ("This system uses AI to intelligently extract product information from ANY catalog. Please configure an AI provider by adding your API key to the .env file in the config folder."))
    , ("features", Json.arr
        [ Json.str ("Real-time AI extraction")
        , Json.str ("Works with any PDF type")
        , Json.str ("98%+ accuracy with proper AI") ])
    , ("specifications", Json.obj [])
    , ("applications", Json.arr [])
    , ("pricing", Json.obj
        [ ("price", Json.str ("Configure AI"))
        , ("currency", Json.str ("USD")) ]) ]

def noAiConfiguredDoc : Json :=
  Json.obj
    [ ("product_family", Json.str ("AI Configuration Required"))
    , ("category", Json.str ("Please Add API Key"))
    , ("company", Json.obj
        [ ("name", Json.str ("Configure AI to extract company info"))
        , ("website", Json.str (""))
        , ("phone", Json.str ("")) ])
    , ("products", Json.arr [noAiConfiguredProduct]) ]

/-! ## The DeepSeek path (ai_analyzer.py lines 98-186)

The transport is stubbed: a `DsNet` value is what `requests.post` does for
one request (the request payload itself — prompt text, truncation budgets —
does not influence any behaviour modelled here, because the stub carries the
provider's answer explicitly).  `analyzeWithDeepseek` takes the outcome of
the first request and, in case of a timeout retry (lines 143-149), of the
second. -/

structure DsResp where
  status : Nat
  text : String
  /-- `response.json()`; `none` models a raised decode error. -/
  body : Option Json

inductive DsNet where
  /-- `requests.exceptions.Timeout`. -/
  | timeout
  /-- any other exception from the call. -/
  | raises
  | resp (r : DsResp)

/-- What `analyzeWithDeepseek` yields: the returned document, how many
requests were issued, and the `DeepSeek API error: status - body[:200]`
diagnostic when the non-success branch printed one. -/
structure DsOutcome where
  doc : Json
  requests : Nat
  errorLog : Option String

/-- `result['choices'][0]['message']['content']` after the
`'choices' in result and len(result['choices']) > 0` guard; `none` when the
guard fails or any of the lookups would raise (both of which the source turns
into the `_no_ai_configured` fallback). -/
def choicesContent (result : Json) : Option String :=
  match jGet result ("choices") with
  | some (Json.arr (first :: _)) =>
    match jGet first ("message") with
    | some msg =>
      match jGet msg ("content") with
      | some (Json.str s) => some s
      | _ => none
    | none => none
  | _ => none

/-- Whether `len(x)` succeeds for the value of `.get('products', [])`: `len`
raises `TypeError` on numbers, booleans and `None`. -/
def pyLenOk : Option Json → Bool
  | none => true
  | some (Json.arr _) => true
  | some (Json.obj _) => true
  | some (Json.str _) => true
  | some _ => false

def dsErrorLog (status : Nat) (text : String) : String :=
  "DeepSeek API error: " ++ Nat.repr status ++ " - " ++ pyTake 200 text

/-- Lines 151-180: the handling of one HTTP response.  Status 200 with a
well-shaped body parses the completion (fence strip, then
`_parse_ai_response`); every failure — decode error, unexpected envelope,
a `len` error on the parsed products — collapses to `_no_ai_configured`,
and a non-200 status additionally prints the status with the error body
truncated to 200 characters. -/
def handleDsResp (r : DsResp) : Json × Option String :=
  if r.status == 200 then
    match r.body with
    | none => (noAiConfiguredDoc, none)
    | some result =>
      match choicesContent result with
      | some content =>
        let parsed := parseAiResponse (stripCodeFence content)
        if pyLenOk (jGet parsed ("products")) then (parsed, none)
        else (noAiConfiguredDoc, none)
      | none => (noAiConfiguredDoc, none)
  else
    (noAiConfiguredDoc, some (dsErrorLog r.status r.text))

/-- `_analyze_with_deepseek`: one request; only a `Timeout` triggers the
single retry with the reduced prompt; any other exception (and a second
timeout) is caught by the outer handler and yields `_no_ai_configured`. -/
def analyzeWithDeepseek (net1 net2 : DsNet) : DsOutcome :=
  match net1 with
  | DsNet.raises => ⟨noAiConfiguredDoc, 1, none⟩
  | DsNet.timeout =>
    match net2 with
    | DsNet.resp r =>
      let (doc, log) := handleDsResp r
      ⟨doc, 2, log⟩
    | _ => ⟨noAiConfiguredDoc, 2, none⟩
  | DsNet.resp r =>
    let (doc, log) := handleDsResp r
    ⟨doc, 1, log⟩

/-! ## The Hugging Face path (ai_analyzer.py lines 469-508) -/

inductive HfNet where
  | raises
  | resp (status : Nat) (body : Option Json)

def hfSuccessDoc (summary : Json) : Json :=
  Json.obj
    [ ("product_family", Json.str ("Product Catalog"))
    , ("category", Json.str ("Products"))
    , ("company", Json.obj [])
    , ("products", Json.arr
        [ Json.obj
            [ ("name", Json.str ("See extracted data"))
            , ("model", Json.str ("Hugging Face extraction"))
            , ("description", summary)
            , ("features", Json.arr [])
            , ("specifications", Json.obj [])
            , ("applications", Json.arr [])
            , ("pricing", Json.obj
                [ ("price", Json.str ("See catalog"))
                , ("currency", Json.str ("USD")) ]) ] ]) ]

/-- `_analyze_with_huggingface`: a 200 whose body is a nonempty list of
dictionaries reports the summary text; a 200 of another shape leaves
`ai_summary` unbound and the description falls back to the fixed text; a
nonempty list headed by a non-dictionary raises (`.get` missing) into the
exception handler; everything else is `_no_ai_configured`. -/
def analyzeWithHuggingface (net : HfNet) : Json :=
  match net with
  | HfNet.raises => noAiConfiguredDoc
  | HfNet.resp status body =>
    if status == 200 then
      match body with
      | none => noAiConfiguredDoc
      | some (Json.arr (first :: _)) =>
        match first with
        | Json.obj fs =>
          match lookupField fs ("summary_text") with
          | some v => hfSuccessDoc v
          | none => hfSuccessDoc (Json.str (""))
        | _ => noAiConfiguredDoc
      | some _ => hfSuccessDoc (Json.str ("AI analysis complete"))
    else noAiConfiguredDoc

/-! ## The SDK-backed providers and the missing rule-based fallback

The GPT-4 Vision, Claude Vision and Gemini Vision paths (and the text-mode
OpenAI/Anthropic paths) all have the same observable shape: the SDK call
yields a completion string that goes through `_parse_ai_response`, and any
exception lands in a handler that calls `self._analyze_with_advanced_rules`.
No class in the repository defines `_analyze_with_advanced_rules` (it is
referenced at ai_analyzer.py lines 71, 239, 290, 330 and 380 and defined
nowhere), so reaching any of those handlers raises `AttributeError`. -/

inductive PyError where
  | attributeError
  | typeError

inductive SdkCall where
  | raises
  | completes (text : String)

def analyzeWithSdk (call : SdkCall) : Except PyError Json :=
  match call with
  | SdkCall.completes text => Except.ok (parseAiResponse text)
  | SdkCall.raises => Except.error PyError.attributeError

/-- `_analyze_with_vision_ai` (lines 80-96) for a selected provider.  (The
function's own no-provider branch is unreachable from `analyze_catalog`,
which only dispatches here when a provider was detected.) -/
def analyzeWithVisionAi (p : Provider) (ds1 ds2 : DsNet) (hf : HfNet)
    (call : SdkCall) : Except PyError Json :=
  match p with
  | Provider.deepseek => Except.ok (analyzeWithDeepseek ds1 ds2).doc
  | Provider.openai => analyzeWithSdk call
  | Provider.anthropic => analyzeWithSdk call
  | Provider.google => analyzeWithSdk call
  | Provider.huggingface => Except.ok (analyzeWithHuggingface hf)

/-- `_analyze_with_text_ai` (lines 332-380) for a selected provider: the
OpenAI/Anthropic branches parse the completion directly (no fence strip),
their exception handler again reaching the undefined
`_analyze_with_advanced_rules`; DeepSeek and Hugging Face delegate; any
other provider (google) falls to the `else` of lines 372-374, which returns
`_no_ai_configured`. -/
def analyzeWithTextAi (p : Provider) (ds1 ds2 : DsNet) (hf : HfNet)
    (call : SdkCall) : Except PyError Json :=
  match p with
  | Provider.anthropic => analyzeWithSdk call
  | Provider.openai => analyzeWithSdk call
  | Provider.deepseek => Except.ok (analyzeWithDeepseek ds1 ds2).doc
  | Provider.huggingface => Except.ok (analyzeWithHuggingface hf)
  | Provider.google => Except.ok noAiConfiguredDoc

/-- `analyze_catalog` (lines 52-78).  With no detected provider the `else`
branch calls `self._analyze_with_advanced_rules(extracted_content)`, an
attribute no class of the repository has: `AttributeError`.  Afterwards the
summary print takes `len(structured_data.get('products', []))`, which
raises on a non-dictionary result or a products value without `len`. -/
def analyzeCatalog (env : CredEnv) (useVision : Bool) (ds1 ds2 : DsNet)
    (hf : HfNet) (call : SdkCall) : Except PyError Json :=
  match detectAvailableAi env with
  | none => Except.error PyError.attributeError
  | some p =>
    let r := if useVision then analyzeWithVisionAi p ds1 ds2 hf call
             else analyzeWithTextAi p ds1 ds2 hf call
    match r with
    | Except.error e => Except.error e
    | Except.ok doc =>
      match doc with
      | Json.obj fs =>
        if pyLenOk (lookupField fs ("products")) then Except.ok doc
        else Except.error PyError.typeError
      | _ => Except.error PyError.attributeError

/-! ## The extractor (universal_extractor.py)

The two PDF libraries are external collaborators; what they deliver for one
page is a `PageIn` (their possibly-`None` text, the raw table grids, whether
the full-page render succeeded, the layout pass's block types or the raised
error, the positioned text-block tuples or a raised error).  Geometry comes
to us as floats; no claim computes with a coordinate, so coordinates are
carried as opaque `Int` payloads. -/

structure ImgMeta where
  width : Nat
  height : Nat

/-- One tuple of `page.get_text("blocks")`: PyMuPDF always yields 7-tuples
`(x0, y0, x1, y1, text, block_no, block_type)`, so the source's
`len(block) >= 5` guard always holds and its `block[5]` is the block
number. -/
structure RawBlock where
  x0 : Int
  y0 : Int
  x1 : Int
  y1 : Int
  btext : String
  blockNo : Nat
  blockKind : Nat

/-- A raw table grid: rows of cells, a cell possibly `None`. -/
def TableGrid := List (List (Option String))

structure PageIn where
  /-- `page.extract_text()` (pdfplumber; may be `None`). -/
  textPlumber : Option String
  /-- `page.get_text()` (PyMuPDF). -/
  textPymupdf : Option String
  /-- `page.extract_tables()` (may be `None`). -/
  tablesIn : Option (List TableGrid)
  /-- `get_pixmap` + save: the pixmap's dimensions, `none` when it raised. -/
  pixmap : Option ImgMeta
  /-- `get_text("dict")["blocks"]` types, or the raised error's text. -/
  layoutIn : Except String (Int × Int × List Nat)
  /-- `get_text("blocks")`, `none` when it raised. -/
  blocksIn : Option (List RawBlock)

structure ImageRec where
  page : Nat
  kind : String
  path : String
  width : Nat
  height : Nat

structure LayoutOk where
  width : Int
  height : Int
  blockCount : Nat
  textBlockCount : Nat
  imageBlockCount : Nat

structure TextBlockRec where
  x0 : Int
  y0 : Int
  x1 : Int
  y1 : Int
  btext : String
  blockType : Nat

/-- The page dictionary `_extract_page_multimethod` returns (lines
115-126). -/
structure PageContent where
  page_number : Nat
  text : String
  text_length : Nat
  tables : List TableGrid
  table_count : Nat
  images : List ImageRec
  image_count : Nat
  layout : Except String LayoutOk
  text_blocks : List TextBlockRec
  has_content : Bool

/-- `_extract_images_pymupdf` (lines 128-152): one full-page render per
page when the pixmap could be produced and saved, else no entry. -/
def extractImagesPymupdf (pix : Option ImgMeta) (pageNum : Nat) : List ImageRec :=
  match pix with
  | some m =>
    [ { page := pageNum + 1
      , kind := "full_page"
      , path := "output/images/page_" ++ Nat.repr (pageNum + 1) ++ "_full.png"
      , width := m.width
      , height := m.height } ]
  | none => []

/-- `_analyze_layout` (lines 154-176): count the type-0 and type-1 blocks;
an exception degrades to the error-marker dictionary. -/
def analyzeLayout : Except String (Int × Int × List Nat) → Except String LayoutOk
  | Except.error e => Except.error e
  | Except.ok (w, h, kinds) =>
    Except.ok
      { width := w
      , height := h
      , blockCount := kinds.length
      , textBlockCount := (kinds.filter (fun k => k == 0)).length
      , imageBlockCount := (kinds.filter (fun k => k == 1)).length }

/-- `_extract_text_blocks` (lines 178-198): each 7-tuple becomes a
positioned record with the text stripped; an exception degrades to the
empty sequence. -/
def extractTextBlocks : Option (List RawBlock) → List TextBlockRec
  | none => []
  | some bs =>
    bs.map (fun b =>
      { x0 := b.x0, y0 := b.y0, x1 := b.x1, y1 := b.y1
      , btext := pyStrip b.btext, blockType := b.blockNo })

/-- `_extract_page_multimethod` (lines 104-126): the longer of the two text
passes wins (the pdfplumber text only on a strict win), tables default to
empty, and `has_content` is derived from the page's own text, tables and
images. -/
def extractPageMultimethod (p : PageIn) (pageNum : Nat) : PageContent :=
  let text_plumber := p.textPlumber.getD ""
  let text_pymupdf := p.textPymupdf.getD ""
  let text := if text_plumber.length > text_pymupdf.length then text_plumber
              else text_pymupdf
  let tables := p.tablesIn.getD []
  let images := extractImagesPymupdf p.pixmap pageNum
  { page_number := pageNum + 1
  , text := text
  , text_length := text.length
  , tables := tables
  , table_count := tables.length
  , images := images
  , image_count := images.length
  , layout := analyzeLayout p.layoutIn
  , text_blocks := extractTextBlocks p.blocksIn
  , has_content := decide (0 < text.length) || decide (0 < tables.length)
      || decide (0 < images.length) }

structure MetaDetails where
  title : String
  author : String
  subject : String
  creator : String
  producer : String
  creationDate : String
  modificationDate : String

/-- The metadata dictionary: `_extract_metadata`'s fields (`none` when that
call degraded to the source-file-only dictionary), the source file name and
the `total_pages` entry `extract_complete_content` adds. -/
structure MetaRec where
  details : Option MetaDetails
  source_file : String
  total_pages : Nat

/-- A PDF as the two libraries present it: its metadata and one `PageIn`
per page, in page order. -/
structure PdfIn where
  sourceFile : String
  metaIn : Option MetaDetails
  pagesIn : List PageIn

structure ExtractedContent where
  metadata : MetaRec
  pages : List PageContent

/-- The `for page_num in range(self.total_pages)` loop of lines 63-73,
started at index `i`. -/
def extractPagesFrom (i : Nat) : List PageIn → List PageContent
  | [] => []
  | p :: rest => extractPageMultimethod p i :: extractPagesFrom (i + 1) rest

/-- `extract_complete_content` (lines 31-81): `total_pages` is the page
count, and the pages list collects `_extract_page_multimethod` over
`range(total_pages)` in order. -/
def extractCompleteContent (pdf : PdfIn) : ExtractedContent :=
  { metadata :=
      { details := pdf.metaIn
      , source_file := pdf.sourceFile
      , total_pages := pdf.pagesIn.length }
  , pages := extractPagesFrom 0 pdf.pagesIn }

/-- `_combine_text` (ai_analyzer.py lines 546-552). -/
def combineText (c : ExtractedContent) : String :=
  String.intercalate "\n\n"
    ((c.pages.filter (fun p => p.text != "")).map
      (fun p => "=== Page " ++ Nat.repr p.page_number ++ " ===\n" ++ p.text))

/-- `_extract_all_tables` (ai_analyzer.py lines 554-563): every table tagged
with its page number, in page order. -/
def extractAllTables (c : ExtractedContent) : List (Nat × TableGrid) :=
  c.pages.flatMap (fun p => p.tables.map (fun t => (p.page_number, t)))

/-! ## The translator (translator.py)

A structured document is a decoded JSON dictionary: a field list.  The
failure paths of `_translate_to_persian` / `_translate_to_chinese` assign
`data['_rtl']` and `data['_language']` on the *caller's* dictionary before
returning it, so each translation function is embedded as
`input → outcome → (result, input after the call)`: the second component
exposes the mutation. -/

structure TrResp where
  status : Nat
  /-- `response.json()`; `none` models a raised decode error. -/
  body : Option Json

inductive TrNet where
  | raises
  | resp (r : TrResp)

/-- Python dictionary assignment `d[k] = v`: update the first (unique)
occurrence in place, else append. -/
def setKey (fs : List (String × Json)) (k : String) (v : Json) :
    List (String × Json) :=
  match fs with
  | [] => [(k, v)]
  | (k', v') :: rest =>
    if k' == k then (k', v) :: rest else (k', v') :: setKey rest k v

/-- `d['_rtl'] = rtl; d['_language'] = code`. -/
def tagLang (rtl : Bool) (code : String) (fs : List (String × Json)) :
    List (String × Json) :=
  setKey (setKey fs ("_rtl") (Json.bool rtl)) ("_language") (Json.str code)

/-- The fully translated dictionary a provider answer yields, when every
step succeeds: status 200, a decodable body, the
`choices[0].message.content` string, and `json.loads` of the
greedily fence-stripped, stripped content producing a dictionary.  `none`
on any failure (which the source routes into tagging and returning the
original). -/
def trTranslatedDoc (net : TrNet) : Option (List (String × Json)) :=
  match net with
  | TrNet.raises => none
  | TrNet.resp r =>
    if r.status == 200 then
      match r.body with
      | none => none
      | some result =>
        match choicesContent result with
        | none => none
        | some content =>
          match loads (stripCodeFenceGreedy (pyStrip content)) with
          | some (Json.obj fs) => some fs
          | _ => none
    else none

/-- `_translate_to_persian` (lines 37-116), with the result and the
caller-visible dictionary after the call.  On success the fresh translated
dictionary is tagged and returned and the input is untouched; a failing
`len` on the translated products rejoins the failure paths; every failure
path tags the *input* in place and returns it. -/
def translateToPersian (data : List (String × Json)) (net : TrNet) :
    List (String × Json) × List (String × Json) :=
  match trTranslatedDoc net with
  | some fs =>
    if pyLenOk (lookupField fs ("products")) then
      (tagLang true ("fa") fs, data)
    else
      (tagLang true ("fa") data, tagLang true ("fa") data)
  | none => (tagLang true ("fa") data, tagLang true ("fa") data)

/-- `_translate_to_chinese` (lines 118-197): identical shape, tags
`_rtl = False`, `_language = 'zh'`. -/
def translateToChinese (data : List (String × Json)) (net : TrNet) :
    List (String × Json) × List (String × Json) :=
  match trTranslatedDoc net with
  | some fs =>
    if pyLenOk (lookupField fs ("products")) then
      (tagLang false ("zh") fs, data)
    else
      (tagLang false ("zh") data, tagLang false ("zh") data)
  | none => (tagLang false ("zh") data, tagLang false ("zh") data)

def asciiLower (c : Char) : Char :=
  if 'A' ≤ c && c ≤ 'Z' then Char.ofNat (c.toNat + 32) else c

/-- `str.lower()` (ASCII; the dispatch strings are ASCII). -/
def pyLower (s : String) : String := String.mk (s.data.map asciiLower)

/-- `translate_to_language` (lines 24-35): dispatch on the lowercased
target; any other language returns the input itself, untouched. -/
def translateToLanguage (data : List (String × Json)) (target : String)
    (net : TrNet) : List (String × Json) × List (String × Json) :=
  if pyLower target == "persian" then translateToPersian data net
  else if pyLower target == "chinese" then translateToChinese data net
  else (data, data)

/-- The decidable "this call failed" test: a supported target whose provider
answer does not produce a usable translated dictionary. -/
def trFails (target : String) (net : TrNet) : Bool :=
  if pyLower target == "persian" || pyLower target == "chinese" then
    match trTranslatedDoc net with
    | some fs => !(pyLenOk (lookupField fs ("products")))
    | none => true
  else false

/-- The language tag a target receives (`fa`/RTL for Persian, `zh`/LTR for
Chinese, nothing otherwise). -/
def langTag (target : String) (fs : List (String × Json)) :
    List (String × Json) :=
  if pyLower target == "persian" then tagLang true ("fa") fs
  else if pyLower target == "chinese" then tagLang false ("zh") fs
  else fs

/-- Stripping the fence and then `_parse_ai_response`, the response-parsing
step of `_analyze_with_deepseek` (ai_analyzer.py lines 157-167). -/
def deepseekParseCompletion (aiResponse : String) : Json :=
  parseAiResponse (stripCodeFence aiResponse)

/-! ## Completion texts that are JSON up to trailing commas

`JsonT` describes a JSON document in which any nonempty array or object may
carry one trailing comma (`tc`); `renderT` prints it compactly.  This is the
class of inputs the repair pass of `_parse_ai_response` exists for: texts
that are valid JSON except for trailing commas before closing brackets.
`safeT` keeps string contents clear of the four characters that would
interact with the quoting or with the (string-blind) repair regexes:
`"`, `\`, `,` and control characters. -/

inductive JsonT where
  | null
  | bool (b : Bool)
  | str (s : String)
  | arr (items : List JsonT) (tc : Bool)
  | obj (fields : List (String × JsonT)) (tc : Bool)

mutual

def renderT : JsonT → List Char
  | JsonT.null => ("null").data
  | JsonT.bool true => ("true").data
  | JsonT.bool false => ("false").data
  | JsonT.str s => '"' :: (s.data ++ ['"'])
  | JsonT.arr items tc =>
    '[' :: (renderItems items ++ ((if tc && !items.isEmpty then [','] else []) ++ [']']))
  | JsonT.obj fields tc =>
    '\x7b' :: (renderFields fields
      ++ ((if tc && !fields.isEmpty then [','] else []) ++ ['\x7d']))

def renderItems : List JsonT → List Char
  | [] => []
  | t :: rest => renderT t ++ renderItemsRest rest

def renderItemsRest : List JsonT → List Char
  | [] => []
  | t :: rest => ',' :: (renderT t ++ renderItemsRest rest)

def renderFields : List (String × JsonT) → List Char
  | [] => []
  | (k, v) :: rest => '"' :: (k.data ++ ('"' :: ':' :: (renderT v ++ renderFieldsRest rest)))

def renderFieldsRest : List (String × JsonT) → List Char
  | [] => []
  | (k, v) :: rest =>
    ',' :: ('"' :: (k.data ++ ('"' :: ':' :: (renderT v ++ renderFieldsRest rest))))

end

mutual

/-- The JSON value a `JsonT` denotes (trailing-comma flags forgotten). -/
def eraseT : JsonT → Json
  | JsonT.null => Json.null
  | JsonT.bool b => Json.bool b
  | JsonT.str s => Json.str s
  | JsonT.arr items _ => Json.arr (eraseItems items)
  | JsonT.obj fields _ => Json.obj (eraseFields fields)

def eraseItems : List JsonT → List Json
  | [] => []
  | t :: rest => eraseT t :: eraseItems rest

def eraseFields : List (String × JsonT) → List (String × Json)
  | [] => []
  | (k, v) :: rest => (k, eraseT v) :: eraseFields rest

end

mutual

/-- Whether any trailing comma is actually printed somewhere in the tree. -/
def hasTC : JsonT → Bool
  | JsonT.null => false
  | JsonT.bool _ => false
  | JsonT.str _ => false
  | JsonT.arr items tc => (tc && !items.isEmpty) || hasTCItems items
  | JsonT.obj fields tc => (tc && !fields.isEmpty) || hasTCFields fields

def hasTCItems : List JsonT → Bool
  | [] => false
  | t :: rest => hasTC t || hasTCItems rest

def hasTCFields : List (String × JsonT) → Bool
  | [] => false
  | (_, v) :: rest => hasTC v || hasTCFields rest

end

mutual

/-- Clear the trailing commas one substitution pass deletes: the object-level
ones for `close = '}'` (the `,\s*}` pass), the array-level ones for
`close = ']'` (the `,\s*]` pass). -/
def clearTCFor (close : Char) : JsonT → JsonT
  | JsonT.null => JsonT.null
  | JsonT.bool b => JsonT.bool b
  | JsonT.str s => JsonT.str s
  | JsonT.arr items tc =>
    JsonT.arr (clearItemsFor close items) (if close == ']' then false else tc)
  | JsonT.obj fields tc =>
    JsonT.obj (clearFieldsFor close fields) (if close == '\x7d' then false else tc)

def clearItemsFor (close : Char) : List JsonT → List JsonT
  | [] => []
  | t :: rest => clearTCFor close t :: clearItemsFor close rest

def clearFieldsFor (close : Char) : List (String × JsonT) → List (String × JsonT)
  | [] => []
  | (k, v) :: rest => (k, clearTCFor close v) :: clearFieldsFor close rest

end

def safeChar (c : Char) : Bool :=
  decide (0x20 ≤ c.toNat) && !(c == '"') && !(c == '\\') && !(c == ',')

mutual

def safeT : JsonT → Bool
  | JsonT.null => true
  | JsonT.bool _ => true
  | JsonT.str s => s.data.all safeChar
  | JsonT.arr items _ => safeItems items
  | JsonT.obj fields _ => safeFields fields

def safeItems : List JsonT → Bool
  | [] => true
  | t :: rest => safeT t && safeItems rest

def safeFields : List (String × JsonT) → Bool
  | [] => true
  | (k, v) :: rest => k.data.all safeChar && safeT v && safeFields rest

end

/-! ## Helper lemmas -/

theorem lookupField_setKey_ne (fs : List (String × Json)) (k : String) (v : Json)
    (k' : String) (h : k' ≠ k) :
    lookupField (setKey fs k v) k' = lookupField fs k' := by
  have hkk : (k == k') = false := beq_eq_false_iff_ne.mpr (fun e => h e.symm)
  induction fs with
  | nil => simp [setKey, lookupField, hkk]
  | cons p rest ih =>
    obtain ⟨k0, v0⟩ := p
    simp only [setKey]
    by_cases h0 : (k0 == k) = true
    · have hk : k0 = k := by simpa using h0
      subst hk
      simp [lookupField, hkk]
    · simp only [if_neg h0, lookupField]
      by_cases h1 : (k0 == k') = true
      · rw [if_pos h1, if_pos h1]
      · rw [if_neg h1, if_neg h1]
        exact ih

theorem lookupField_tagLang (rtl : Bool) (code : String) (fs : List (String × Json))
    (k : String) (h1 : k ≠ "_rtl") (h2 : k ≠ "_language") :
    lookupField (tagLang rtl code fs) k = lookupField fs k := by
  unfold tagLang
  rw [lookupField_setKey_ne _ _ _ _ h2, lookupField_setKey_ne _ _ _ _ h1]

theorem extractPagesFrom_length (l : List PageIn) : ∀ i : Nat,
    (extractPagesFrom i l).length = l.length := by
  induction l with
  | nil => intro i; rfl
  | cons p rest ih => intro i; simp [extractPagesFrom, ih]

theorem extractPagesFrom_numbers (l : List PageIn) : ∀ i : Nat,
    (extractPagesFrom i l).map (fun p => p.page_number) = List.range' (i + 1) l.length := by
  induction l with
  | nil => intro i; rfl
  | cons p rest ih =>
    intro i
    simp only [extractPagesFrom, List.map_cons, List.length_cons, List.range'_succ, ih]
    rfl

/-! ## The claims -/

/-- Claim C9: for every PDF with N pages, the extractor's `pages` sequence
has length N, its `page_number` values are exactly 1..N in order, and N
equals `metadata.total_pages`. -/
theorem extracted_pages_numbered (pdf : PdfIn) :
    (extractCompleteContent pdf).pages.length = pdf.pagesIn.length ∧
    (extractCompleteContent pdf).pages.map (fun p => p.page_number)
      = List.range' 1 pdf.pagesIn.length ∧
    (extractCompleteContent pdf).metadata.total_pages = pdf.pagesIn.length :=
  ⟨extractPagesFrom_length pdf.pagesIn 0, extractPagesFrom_numbers pdf.pagesIn 0, rfl⟩

/-- Claim C10: every extracted page's `has_content` flag equals
`len(text) > 0 or len(tables) > 0 or len(images) > 0` computed from that
page's own `text`, `tables` and `images` fields. -/
theorem page_has_content_derived (p : PageIn) (i : Nat) :
    (extractPageMultimethod p i).has_content
      = (decide (0 < (extractPageMultimethod p i).text.length)
        || decide (0 < (extractPageMultimethod p i).tables.length)
        || decide (0 < (extractPageMultimethod p i).images.length)) ∧
    ((extractPageMultimethod p i).has_content = true ↔
      (0 < (extractPageMultimethod p i).text.length
        ∨ 0 < (extractPageMultimethod p i).tables.length
        ∨ 0 < (extractPageMultimethod p i).images.length)) := by
  refine ⟨rfl, ?_⟩
  simp [extractPageMultimethod, or_assoc]

/-- Claim C1 (code bug): with zero valid credentials `analyze_catalog` does
not return the "Please Add API Key" sentinel — it raises `AttributeError`,
because its rule-based branch calls `self._analyze_with_advanced_rules`,
which no class of the repository defines.  The sentinel itself (which
`_no_ai_configured` would deliver) does have the claimed shape: category
"Please Add API Key" and exactly one product with model "N/A". -/
theorem noCredentials_analyze_raises (env : CredEnv) (uv : Bool) (ds1 ds2 : DsNet)
    (hf : HfNet) (call : SdkCall) (h : detectAvailableAi env = none) :
    analyzeCatalog env uv ds1 ds2 hf call = Except.error PyError.attributeError ∧
    jGet noAiConfiguredDoc ("category") = some (Json.str ("Please Add API Key")) ∧
    jGet noAiConfiguredDoc ("products") = some (Json.arr [noAiConfiguredProduct]) ∧
    jGet noAiConfiguredProduct ("model") = some (Json.str ("N/A")) := by
  refine ⟨?_, rfl, rfl, rfl⟩
  simp only [analyzeCatalog, h]

/-- Witness for C1: the all-empty credential environment. -/
theorem noCredentials_analyze_raises_witness :
    analyzeCatalog ⟨"", "", "", "", ""⟩ true DsNet.raises DsNet.raises HfNet.raises
      SdkCall.raises = Except.error PyError.attributeError :=
  (noCredentials_analyze_raises ⟨"", "", "", "", ""⟩ true DsNet.raises DsNet.raises
    HfNet.raises SdkCall.raises rfl).1

/-- Claim C2 (code bug): `analyze_catalog` can propagate an exception.
With whitespace-only credentials (no provider) it raises `AttributeError`
through the undefined `_analyze_with_advanced_rules`; the same happens with
a valid Anthropic credential when the vision SDK call fails, because the
`except` handler calls the same undefined method. -/
theorem analyzeCatalog_propagates_exception :
    analyzeCatalog ⟨" ", " ", " ", " ", " "⟩ false DsNet.timeout DsNet.timeout
      (HfNet.resp 200 none) (SdkCall.completes ("x"))
      = Except.error PyError.attributeError ∧
    analyzeCatalog ⟨"", "sk-ant-api-key", "", "", ""⟩ true DsNet.raises DsNet.raises
      HfNet.raises SdkCall.raises = Except.error PyError.attributeError :=
  ⟨rfl, rfl⟩

/-- Counterexample to claim C3: a non-success HTTP status does not surface
a `ProviderError` to the caller — `_analyze_with_deepseek` returns the
`_no_ai_configured` fallback document (after printing the status and the
truncated body). -/
theorem deepseek_http_error_counterexample :
    analyzeWithDeepseek (DsNet.resp ⟨500, "Internal Server Error", none⟩) DsNet.raises
      = ⟨noAiConfiguredDoc, 1, some ("DeepSeek API error: 500 - Internal Server Error")⟩ ∧
    (analyzeWithDeepseek (DsNet.resp ⟨500, "Internal Server Error", none⟩)
        DsNet.raises).doc = noAiConfiguredDoc :=
  ⟨rfl, rfl⟩

/-- Claim C3 as amended: a completion attempt that fails with a non-timeout
transport error or a non-success HTTP status is not retried (exactly one
request) and yields the `_no_ai_configured` fallback document to the caller;
the non-success case logs the status with the error body truncated to 200
characters, and no error value is surfaced. -/
theorem deepseek_failure_no_retry_fallback (status : Nat) (text : String)
    (body : Option Json) (net2 : DsNet) (h : status ≠ 200) :
    analyzeWithDeepseek (DsNet.resp ⟨status, text, body⟩) net2
      = ⟨noAiConfiguredDoc, 1, some (dsErrorLog status text)⟩ ∧
    analyzeWithDeepseek DsNet.raises net2 = ⟨noAiConfiguredDoc, 1, none⟩ := by
  constructor
  · have hb : (status == 200) = false := by simpa using h
    simp [analyzeWithDeepseek, handleDsResp, hb]
  · rfl

/-- Witness for the amended C3: a 404. -/
theorem deepseek_failure_no_retry_fallback_witness :
    analyzeWithDeepseek (DsNet.resp ⟨404, "Not Found", some Json.null⟩) DsNet.timeout
      = ⟨noAiConfiguredDoc, 1, some (dsErrorLog 404 ("Not Found"))⟩ :=
  (deepseek_failure_no_retry_fallback 404 ("Not Found") (some Json.null)
    DsNet.timeout (by decide)).1

/-- Claim C7: when the translation call fails in any way, the translator
returns the original document tagged with the requested `_language`/`_rtl`
metadata (every other key keeps its value), and — the embedding being total —
no exception escapes. -/
theorem translator_failure_returns_tagged_input (data : List (String × Json))
    (target : String) (net : TrNet)
    (hl : pyLower target = "persian" ∨ pyLower target = "chinese")
    (hfail : trFails target net = true) :
    (translateToLanguage data target net).1 = langTag target data ∧
    (∀ k, k ≠ "_rtl" → k ≠ "_language" →
      lookupField (translateToLanguage data target net).1 k = lookupField data k) := by
  have h1 : (translateToLanguage data target net).1 = langTag target data := by
    cases hl with
    | inl hp =>
      have hpb : (pyLower target == "persian") = true := by simp [hp]
      cases htr : trTranslatedDoc net with
      | none => simp [translateToLanguage, langTag, translateToPersian, hpb, htr]
      | some fs =>
        have hlen : pyLenOk (lookupField fs ("products")) = false := by
          have h0 := hfail
          simp [trFails, hpb, htr] at h0
          simpa using h0
        simp [translateToLanguage, langTag, translateToPersian, hpb, htr, hlen]
    | inr hc =>
      by_cases hpb : (pyLower target == "persian") = true
      · have heq : pyLower target = "persian" := by simpa using hpb
        rw [heq] at hc
        exact absurd hc (by decide)
      · have hcb : (pyLower target == "chinese") = true := by simp [hc]
        cases htr : trTranslatedDoc net with
        | none => simp [translateToLanguage, langTag, translateToChinese, hpb, hcb, htr]
        | some fs =>
          have hlen : pyLenOk (lookupField fs ("products")) = false := by
            have h0 := hfail
            simp [trFails, hpb, hcb, htr] at h0
            simpa using h0
          simp [translateToLanguage, langTag, translateToChinese, hpb, hcb, htr, hlen]
  refine ⟨h1, fun k hk1 hk2 => ?_⟩
  rw [h1]
  unfold langTag
  by_cases hpb : (pyLower target == "persian") = true
  · rw [if_pos hpb]; exact lookupField_tagLang _ _ _ _ hk1 hk2
  · by_cases hcb : (pyLower target == "chinese") = true
    · rw [if_neg hpb, if_pos hcb]; exact lookupField_tagLang _ _ _ _ hk1 hk2
    · rw [if_neg hpb, if_neg hcb]

/-- Witness for C7: a Persian translation against a 500 answer. -/
theorem translator_failure_returns_tagged_input_witness :
    (translateToLanguage [("product_family", Json.str ("X"))] ("persian")
        (TrNet.resp ⟨500, none⟩)).1
      = langTag ("persian") [("product_family", Json.str ("X"))] :=
  (translator_failure_returns_tagged_input [("product_family", Json.str ("X"))]
    ("persian") (TrNet.resp ⟨500, none⟩) (Or.inl rfl) rfl).1

/-- Counterexample to claim C8: the translator does mutate its input.  After
a failed Persian translation the caller's dictionary has grown the `_rtl`
and `_language` keys in place: the post-call input is a three-field list
differing from the original one-field document. -/
theorem translate_mutates_input_concrete :
    (translateToLanguage [("product_family", Json.str ("X"))] ("persian")
        (TrNet.resp ⟨500, none⟩)).2
      = [("product_family", Json.str ("X")), ("_rtl", Json.bool true),
        ("_language", Json.str ("fa"))] ∧
    lookupField [("product_family", Json.str ("X"))] ("_rtl") = none ∧
    lookupField (translateToLanguage [("product_family", Json.str ("X"))] ("persian")
        (TrNet.resp ⟨500, none⟩)).2 ("_rtl") = some (Json.bool true) ∧
    (translateToLanguage [("product_family", Json.str ("X"))] ("persian")
        (TrNet.resp ⟨500, none⟩)).2 ≠ [("product_family", Json.str ("X"))] := by
  refine ⟨rfl, rfl, rfl, fun hcontra => ?_⟩
  exact absurd (congrArg List.length hcontra : (3 : Nat) = 1) (by decide)

/-- Claim C8 as amended: `translate_to_language` leaves its input document
unchanged on the success path and for unsupported targets, but on every
failure path of a supported target it mutates the input in place, adding
the `_language` and `_rtl` keys. -/
theorem translate_input_after_call (data : List (String × Json)) (target : String)
    (net : TrNet) :
    (translateToLanguage data target net).2
      = if trFails target net then langTag target data else data := by
  by_cases hpb : (pyLower target == "persian") = true
  · cases htr : trTranslatedDoc net with
    | none => simp [translateToLanguage, trFails, langTag, translateToPersian, hpb, htr]
    | some fs =>
      by_cases hlen : pyLenOk (lookupField fs ("products")) = true
      · simp [translateToLanguage, trFails, langTag, translateToPersian, hpb, htr, hlen]
      · simp [translateToLanguage, trFails, langTag, translateToPersian, hpb, htr,
          Bool.of_not_eq_true hlen]
  · by_cases hcb : (pyLower target == "chinese") = true
    · cases htr : trTranslatedDoc net with
      | none =>
        simp [translateToLanguage, trFails, langTag, translateToChinese, hpb, hcb, htr]
      | some fs =>
        by_cases hlen : pyLenOk (lookupField fs ("products")) = true
        · simp [translateToLanguage, trFails, langTag, translateToChinese, hpb, hcb,
            htr, hlen]
        · simp [translateToLanguage, trFails, langTag, translateToChinese, hpb, hcb,
            htr, Bool.of_not_eq_true hlen]
    · simp [translateToLanguage, trFails, langTag, hpb, hcb]

/-- Claim C6: a completion that is not valid JSON even after fence-stripping
and trailing-comma repair parses, without raising, to the fixed "extraction
error" sentinel — `product_family = "Extraction Error"`,
`category = "AI Response Invalid"`, empty company, empty products — which is
distinct from the "not configured" sentinel. -/
theorem invalid_completion_error_sentinel (s : String)
    (h1 : loadsL (pyStripL (stripCodeFence s).data) = none)
    (h2 : loadsL (pyRepair (pyStripL (stripCodeFence s).data)) = none) :
    deepseekParseCompletion s = extractionErrorDoc ∧
    jGet (deepseekParseCompletion s) ("product_family")
      = some (Json.str ("Extraction Error")) ∧
    jGet (deepseekParseCompletion s) ("category")
      = some (Json.str ("AI Response Invalid")) ∧
    jGet (deepseekParseCompletion s) ("company") = some (Json.obj []) ∧
    jGet (deepseekParseCompletion s) ("products") = some (Json.arr []) ∧
    extractionErrorDoc ≠ noAiConfiguredDoc := by
  have he : deepseekParseCompletion s = extractionErrorDoc := by
    simp only [deepseekParseCompletion, parseAiResponse, h1, h2]
  refine ⟨he, by rw [he]; rfl, by rw [he]; rfl, by rw [he]; rfl, by rw [he]; rfl,
    fun hcontra => ?_⟩
  have h3 : (some (Json.str ("AI Response Invalid")) : Option Json)
      = some (Json.str ("Please Add API Key")) :=
    congrArg (fun j => jGet j ("category")) hcontra
  have h4 := Option.some.inj h3
  injection h4 with h5
  exact absurd h5 (by decide)

/-- Witness for C6: a completion that is not JSON at all. -/
theorem invalid_completion_error_sentinel_witness :
    deepseekParseCompletion ("not json at all") = extractionErrorDoc :=
  (invalid_completion_error_sentinel ("not json at all") rfl rfl).1

/-! ## Fence stripping (claim C4) -/

theorem isPrefixOf_append_self : ∀ (p r : List Char), p.isPrefixOf (p ++ r) = true
  | [], _ => by simp [List.isPrefixOf]
  | c :: pt, r => by simp [List.isPrefixOf, isPrefixOf_append_self pt r]

theorem splitOnceAfter_here (pat r : List Char) (hne : pat ≠ []) :
    splitOnceAfter pat (pat ++ r) = some ([], r) := by
  cases pat with
  | nil => exact absurd rfl hne
  | cons c pt =>
    simp only [List.cons_append, splitOnceAfter]
    rw [if_pos (by simpa using isPrefixOf_append_self (c :: pt) r)]
    simp only [Option.some.injEq, Prod.mk.injEq, true_and]
    simpa using List.drop_left (c :: pt) r

theorem splitOnceAfter_cons_skip {pat : List Char} {c : Char} {cs : List Char}
    (h : pat.isPrefixOf (c :: cs) = false) :
    splitOnceAfter pat (c :: cs)
      = (splitOnceAfter pat cs).map (fun p => (c :: p.1, p.2)) := by
  simp only [splitOnceAfter, h, Bool.false_eq_true, if_false]
  cases hsp : splitOnceAfter pat cs with
  | none => rfl
  | some p => obtain ⟨b, a⟩ := p; rfl

theorem splitOnceAfter_skip_all {p0 : Char} {pt : List Char} (pre : List Char)
    (hpre : ∀ c ∈ pre, c ≠ p0) (suf : List Char) :
    splitOnceAfter (p0 :: pt) (pre ++ suf)
      = (splitOnceAfter (p0 :: pt) suf).map (fun p => (pre ++ p.1, p.2)) := by
  induction pre with
  | nil =>
    simp only [List.nil_append]
    cases splitOnceAfter (p0 :: pt) suf with
    | none => rfl
    | some p => obtain ⟨b, a⟩ := p; rfl
  | cons c pre' ih =>
    have hc : c ≠ p0 := hpre c (by simp)
    have hbe : (p0 == c) = false := beq_eq_false_iff_ne.mpr (Ne.symm hc)
    have hpf : (p0 :: pt).isPrefixOf (c :: (pre' ++ suf)) = false := by
      simp [List.isPrefixOf, hbe]
    rw [List.cons_append, splitOnceAfter_cons_skip hpf,
      ih (fun x hx => hpre x (by simp [hx]))]
    cases splitOnceAfter (p0 :: pt) suf with
    | none => rfl
    | some p => obtain ⟨b, a⟩ := p; rfl

theorem pyStripL_cons_ws {c : Char} (hc : pyWs c = true) (l : List Char) :
    pyStripL (c :: l) = pyStripL l := by
  simp [pyStripL, List.dropWhile_cons_of_pos, hc]

theorem pyStripL_append_ws {c : Char} (hc : pyWs c = true) (l : List Char) :
    pyStripL (l ++ [c]) = pyStripL l := by
  unfold pyStripL
  rw [List.dropWhile_append]
  by_cases hx : (l.dropWhile pyWs).isEmpty = true
  · rw [if_pos hx]
    have hl : l.dropWhile pyWs = [] := by simpa [List.isEmpty_iff] using hx
    rw [hl]
    simp [List.dropWhile_cons_of_pos, hc]
  · rw [if_neg hx]
    rw [List.reverse_append]
    simp only [List.reverse_cons, List.reverse_nil, List.nil_append,
      List.singleton_append]
    rw [List.dropWhile_cons_of_pos hc]

/-- Claim C4: a completion wrapped in a fenced code block, with or without
the `json` language tag, is stripped to its interior before parsing; in
particular the fenced `product_family`/`products` example parses to exactly
that document. -/
theorem fenced_completion_parses_interior (s : String)
    (hnb : ∀ c ∈ s.data, c ≠ '\x60') :
    stripCodeFence ("```json\n" ++ s ++ "\n```") = pyStrip s ∧
    stripCodeFence ("```\n" ++ s ++ "\n```") = pyStrip s ∧
    deepseekParseCompletion ("```json\n" ++ s ++ "\n```")
      = parseAiResponse (pyStrip s) ∧
    deepseekParseCompletion
        ("```json\n\x7b\"product_family\":\"X\",\"products\":[]\x7d\n```")
      = Json.obj [("product_family", Json.str ("X")), ("products", Json.arr [])] := by
  have hdata1 : ("```json\n" ++ s ++ "\n```").data
      = fenceJsonPat ++ ('\n' :: (s.data ++ ('\n' :: fencePat))) := by
    rw [String.data_append, String.data_append]
    show (fenceJsonPat ++ ['\n']) ++ s.data ++ ('\n' :: fencePat) = _
    simp [List.append_assoc]
  have hdata2 : ("```\n" ++ s ++ "\n```").data
      = '\x60' :: '\x60' :: '\x60' :: '\n' :: (s.data ++ ('\n' :: fencePat)) := by
    rw [String.data_append, String.data_append]
    show ('\x60' :: '\x60' :: '\x60' :: ['\n']) ++ s.data ++ ('\n' :: fencePat) = _
    simp [List.append_assoc]
  have hinner : splitOnceAfter fencePat ('\n' :: (s.data ++ ('\n' :: fencePat)))
      = some ('\n' :: (s.data ++ ['\n']), []) := by
    have h0 : fencePat.isPrefixOf ('\n' :: (s.data ++ ('\n' :: fencePat))) = false := by
      rw [show (fencePat : List Char) = '\x60' :: ['\x60', '\x60'] from rfl]
      simp [List.isPrefixOf]
    rw [show (fencePat : List Char) = '\x60' :: ['\x60', '\x60'] from rfl] at h0 ⊢
    rw [splitOnceAfter_cons_skip h0, splitOnceAfter_skip_all s.data hnb]
    have h1 : splitOnceAfter ('\x60' :: ['\x60', '\x60'])
        ('\n' :: ('\x60' :: ['\x60', '\x60'])) = some (['\n'], []) := rfl
    rw [h1]
    simp
  have hstrip : String.mk (pyStripL ('\n' :: (s.data ++ ['\n']))) = pyStrip s := by
    unfold pyStrip
    rw [pyStripL_cons_ws (show pyWs '\n' = true from rfl),
      pyStripL_append_ws (show pyWs '\n' = true from rfl)]
  have hjson : stripCodeFence ("```json\n" ++ s ++ "\n```") = pyStrip s := by
    unfold stripCodeFence
    rw [hdata1]
    have hsplit : splitOnceAfter fenceJsonPat
        (fenceJsonPat ++ ('\n' :: (s.data ++ ('\n' :: fencePat))))
        = some ([], '\n' :: (s.data ++ ('\n' :: fencePat))) :=
      splitOnceAfter_here fenceJsonPat _ (by decide)
    have hcontains : containsSeq fenceJsonPat
        (fenceJsonPat ++ ('\n' :: (s.data ++ ('\n' :: fencePat)))) = true := by
      unfold containsSeq
      rw [hsplit]
      rfl
    rw [if_pos hcontains, hsplit]
    simp only [hinner]
    exact hstrip
  have hnojson : splitOnceAfter fenceJsonPat
      ('\x60' :: '\x60' :: '\x60' :: '\n' :: (s.data ++ ('\n' :: fencePat))) = none := by
    have hpatj : (fenceJsonPat : List Char)
        = '\x60' :: ['\x60', '\x60', 'j', 's', 'o', 'n'] := rfl
    have e1 : fenceJsonPat.isPrefixOf
        ('\x60' :: '\x60' :: '\x60' :: '\n' :: (s.data ++ ('\n' :: fencePat)))
        = false := by
      rw [hpatj]; simp [List.isPrefixOf]
    have e2 : fenceJsonPat.isPrefixOf
        ('\x60' :: '\x60' :: '\n' :: (s.data ++ ('\n' :: fencePat))) = false := by
      rw [hpatj]; simp [List.isPrefixOf]
    have e3 : fenceJsonPat.isPrefixOf
        ('\x60' :: '\n' :: (s.data ++ ('\n' :: fencePat))) = false := by
      rw [hpatj]; simp [List.isPrefixOf]
    have e4 : fenceJsonPat.isPrefixOf
        ('\n' :: (s.data ++ ('\n' :: fencePat))) = false := by
      rw [hpatj]; simp [List.isPrefixOf]
    rw [splitOnceAfter_cons_skip e1, splitOnceAfter_cons_skip e2,
      splitOnceAfter_cons_skip e3, splitOnceAfter_cons_skip e4]
    rw [hpatj, splitOnceAfter_skip_all s.data hnb]
    rfl
  have hplain : stripCodeFence ("```\n" ++ s ++ "\n```") = pyStrip s := by
    unfold stripCodeFence
    rw [hdata2]
    have hcontains : containsSeq fenceJsonPat
        ('\x60' :: '\x60' :: '\x60' :: '\n' :: (s.data ++ ('\n' :: fencePat)))
        = false := by
      unfold containsSeq
      rw [hnojson]
      rfl
    rw [if_neg (by simp [hcontains])]
    have hsplit : splitOnceAfter fencePat
        ('\x60' :: '\x60' :: '\x60' :: '\n' :: (s.data ++ ('\n' :: fencePat)))
        = some ([], '\n' :: (s.data ++ ('\n' :: fencePat))) := by
      have heq : ('\x60' :: '\x60' :: '\x60' :: '\n' :: (s.data ++ ('\n' :: fencePat))
            : List Char)
          = fencePat ++ ('\n' :: (s.data ++ ('\n' :: fencePat))) := rfl
      rw [heq]
      exact splitOnceAfter_here fencePat _ (by decide)
    have hcontains2 : containsSeq fencePat
        ('\x60' :: '\x60' :: '\x60' :: '\n' :: (s.data ++ ('\n' :: fencePat)))
        = true := by
      unfold containsSeq
      rw [hsplit]
      rfl
    rw [if_pos hcontains2, hsplit]
    simp only [hinner]
    exact hstrip
  refine ⟨hjson, hplain, ?_, rfl⟩
  unfold deepseekParseCompletion
  rw [hjson]

/-- Witness for C4: the claim's concrete fenced completion. -/
theorem fenced_completion_parses_interior_witness :
    stripCodeFence ("```json\n" ++ "\x7b\"product_family\":\"X\",\"products\":[]\x7d" ++ "\n```")
      = pyStrip ("\x7b\"product_family\":\"X\",\"products\":[]\x7d") :=
  (fenced_completion_parses_interior
    ("\x7b\"product_family\":\"X\",\"products\":[]\x7d") (by decide)).1

/-! ## Rendered JSON texts: head/tail facts -/

theorem renderT_head_props (t : JsonT) :
    ∃ c cs, renderT t = c :: cs ∧ pyWs c = false ∧ jsonWs c = false
      ∧ (c == ',') = false ∧ (c == ']') = false ∧ (c == '\x7d') = false
      ∧ c ≠ ']' := by
  cases t with
  | null =>
    exact ⟨'n', ("ull").data, rfl, by decide, by decide, by decide, by decide,
      by decide, by decide⟩
  | bool b =>
    cases b with
    | true =>
      exact ⟨'t', ("rue").data, rfl, by decide, by decide, by decide, by decide,
        by decide, by decide⟩
    | false =>
      exact ⟨'f', ("alse").data, rfl, by decide, by decide, by decide, by decide,
        by decide, by decide⟩
  | str s =>
    exact ⟨'"', s.data ++ ['"'], rfl, by decide, by decide, by decide, by decide,
      by decide, by decide⟩
  | arr items tc =>
    exact ⟨'[', _, rfl, by decide, by decide, by decide, by decide,
      by decide, by decide⟩
  | obj fields tc =>
    exact ⟨'\x7b', _, rfl, by decide, by decide, by decide, by decide,
      by decide, by decide⟩

theorem renderT_last (t : JsonT) :
    ∃ l c, renderT t = l ++ [c] ∧ pyWs c = false := by
  cases t with
  | null => exact ⟨['n', 'u', 'l'], 'l', rfl, by decide⟩
  | bool b =>
    cases b with
    | true => exact ⟨['t', 'r', 'u'], 'e', rfl, by decide⟩
    | false => exact ⟨['f', 'a', 'l', 's'], 'e', rfl, by decide⟩
  | str s => exact ⟨'"' :: s.data, '"', rfl, by decide⟩
  | arr items tc =>
    refine ⟨'[' :: (renderItems items ++ (if tc && !items.isEmpty then [','] else [])),
      ']', ?_, by decide⟩
    simp [renderT, List.append_assoc]
  | obj fields tc =>
    refine ⟨'\x7b' :: (renderFields fields
        ++ (if tc && !fields.isEmpty then [','] else [])), '\x7d', ?_, by decide⟩
    simp [renderT, List.append_assoc]

theorem renderT_length_pos (t : JsonT) : 1 ≤ (renderT t).length := by
  obtain ⟨c, cs, h, _⟩ := renderT_head_props t
  simp [h]

theorem skipJsonWs_render (t : JsonT) (r : List Char) :
    skipJsonWs (renderT t ++ r) = renderT t ++ r := by
  obtain ⟨c, cs, h, _, hjw, _⟩ := renderT_head_props t
  rw [h, List.cons_append]
  simp [skipJsonWs, List.dropWhile_cons, hjw]

/-! ## The repair scan over rendered texts -/

theorem dtc_cons_not_comma {close c : Char} (h : (c == ',') = false) (l : List Char) :
    dropTrailingCommas close false (c :: l) = c :: dropTrailingCommas close false l := by
  simp [dropTrailingCommas, h]

theorem dtc_no_comma {close : Char} (l : List Char) (h : ∀ c ∈ l, (c == ',') = false)
    (r : List Char) :
    dropTrailingCommas close false (l ++ r) = l ++ dropTrailingCommas close false r := by
  induction l with
  | nil => simp
  | cons c l' ih =>
    rw [List.cons_append, dtc_cons_not_comma (h c (by simp)),
      ih (fun x hx => h x (by simp [hx]))]
    rfl

theorem dtc_comma_close {close : Char} (hw : pyWs close = false) (r : List Char) :
    dropTrailingCommas close false (',' :: close :: r)
      = close :: dropTrailingCommas close false r := by
  have hca : closeAhead close (close :: r) = true := by
    simp [closeAhead, List.dropWhile_cons, hw]
  simp [dropTrailingCommas, hca, hw]

theorem dtc_comma_nonclose {close x : Char} (hw : pyWs x = false)
    (hne : (x == close) = false) (r : List Char) :
    dropTrailingCommas close false (',' :: x :: r)
      = ',' :: dropTrailingCommas close false (x :: r) := by
  have hca : closeAhead close (x :: r) = false := by
    simp [closeAhead, List.dropWhile_cons, hw, hne]
  simp [dropTrailingCommas, hca]

/-- A comma separator before a rendered value is never part of a repair
match, whichever close the pass looks for. -/
theorem dtc_comma_render {close : Char} (hcl : close = ']' ∨ close = '\x7d')
    (t : JsonT) (r : List Char) :
    dropTrailingCommas close false (',' :: (renderT t ++ r))
      = ',' :: dropTrailingCommas close false (renderT t ++ r) := by
  obtain ⟨c, cs, h, hpw, _, _, hbr, hbc, _⟩ := renderT_head_props t
  rw [h, List.cons_append]
  refine dtc_comma_nonclose hpw ?_ _
  cases hcl with
  | inl hc => rw [hc]; exact hbr
  | inr hc => rw [hc]; exact hbc

theorem safeChar_props {c : Char} (h : safeChar c = true) :
    0x20 ≤ c.toNat ∧ (c == '"') = false ∧ (c == '\\') = false
      ∧ (c == ',') = false := by
  simpa [safeChar, and_assoc] using h

theorem key_render_no_comma {k : String} (hk : k.data.all safeChar = true) :
    ∀ c ∈ ('"' :: (k.data ++ ['"', ':'])), (c == ',') = false := by
  intro c hc
  rcases List.mem_cons.mp hc with h | h
  · subst h; decide
  · rcases List.mem_append.mp h with h2 | h2
    · exact (safeChar_props (List.all_eq_true.mp hk c h2)).2.2.2
    · rcases List.mem_cons.mp h2 with h3 | h3
      · subst h3; decide
      · rcases List.mem_cons.mp h3 with h4 | h4
        · subst h4; decide
        · exact absurd h4 (List.not_mem_nil c)

/-! One substitution pass (`,\s*}` for `close = '}'`, `,\s*]` for
`close = ']'`) on a rendered document deletes exactly that pass's trailing
commas: the scan of the render is the render of the cleared tree. -/

mutual

theorem dtc_render : ∀ (close : Char), (close = ']' ∨ close = '\x7d') →
    ∀ (t : JsonT), safeT t = true → ∀ (r : List Char),
    dropTrailingCommas close false (renderT t ++ r)
      = renderT (clearTCFor close t) ++ dropTrailingCommas close false r
  | close, hcl, JsonT.null, hs, r => by
    simpa [renderT, clearTCFor] using dtc_no_comma (("null").data) (by decide) r
  | close, hcl, JsonT.bool b, hs, r => by
    cases b with
    | true =>
      simpa [renderT, clearTCFor] using dtc_no_comma (("true").data) (by decide) r
    | false =>
      simpa [renderT, clearTCFor] using dtc_no_comma (("false").data) (by decide) r
  | close, hcl, JsonT.str s, hs, r => by
    have hsc : s.data.all safeChar = true := by simpa [safeT] using hs
    have hnc : ∀ c ∈ ('"' :: (s.data ++ ['"'])), (c == ',') = false := by
      intro c hc
      rcases List.mem_cons.mp hc with h | h
      · subst h; decide
      · rcases List.mem_append.mp h with h2 | h2
        · exact (safeChar_props (List.all_eq_true.mp hsc c h2)).2.2.2
        · have he : c = '"' := by simpa using h2
          subst he; decide
    simpa [renderT, clearTCFor] using dtc_no_comma ('"' :: (s.data ++ ['"'])) hnc r
  | close, hcl, JsonT.arr [] tc, hs, r => by
    have h1 : dropTrailingCommas close false (['[', ']'] ++ r)
        = ['[', ']'] ++ dropTrailingCommas close false r :=
      dtc_no_comma (['[', ']']) (by decide) r
    simpa [renderT, renderItems, clearTCFor, clearItemsFor] using h1
  | close, hcl, JsonT.arr (i :: irest) tc, hs, r => by
    have hs' : safeT i = true ∧ safeItems irest = true := by
      simpa [safeT, safeItems, Bool.and_eq_true] using hs
    have hshape : renderT (JsonT.arr (i :: irest) tc) ++ r
        = '[' :: (renderT i ++ (renderItemsRest irest
            ++ ((if tc then [','] else []) ++ (']' :: r)))) := by
      cases tc <;> simp [renderT, renderItems, List.append_assoc]
    rw [hshape, dtc_cons_not_comma (by decide),
      dtc_render close hcl i hs'.1 _, dtc_renderItemsRest close hcl irest hs'.2 _]
    cases tc with
    | false =>
      rw [show ((if false then [','] else []) ++ (']' :: r) : List Char)
          = ']' :: r from rfl]
      rw [dtc_cons_not_comma (by decide)]
      simp [renderT, clearTCFor, clearItemsFor, renderItems, List.append_assoc]
    | true =>
      rw [show ((if true then [','] else []) ++ (']' :: r) : List Char)
          = ',' :: ']' :: r from rfl]
      cases hcl with
      | inl hc =>
        subst hc
        rw [dtc_comma_close (by decide)]
        simp [renderT, clearTCFor, clearItemsFor, renderItems, List.append_assoc]
      | inr hc =>
        subst hc
        rw [dtc_comma_nonclose (by decide) (by decide),
          dtc_cons_not_comma (by decide)]
        simp [renderT, clearTCFor, clearItemsFor, renderItems, List.append_assoc]
  | close, hcl, JsonT.obj [] tc, hs, r => by
    have h1 : dropTrailingCommas close false (['\x7b', '\x7d'] ++ r)
        = ['\x7b', '\x7d'] ++ dropTrailingCommas close false r :=
      dtc_no_comma (['\x7b', '\x7d']) (by decide) r
    simpa [renderT, renderFields, clearTCFor, clearFieldsFor] using h1
  | close, hcl, JsonT.obj ((k, v) :: frest) tc, hs, r => by
    have hs' : k.data.all safeChar = true ∧ safeT v = true ∧ safeFields frest = true := by
      simpa [safeT, safeFields, Bool.and_eq_true, and_assoc] using hs
    have hshape : renderT (JsonT.obj ((k, v) :: frest) tc) ++ r
        = '\x7b' :: (('"' :: (k.data ++ ['"', ':'])) ++ (renderT v
            ++ (renderFieldsRest frest
              ++ ((if tc then [','] else []) ++ ('\x7d' :: r))))) := by
      cases tc <;> simp [renderT, renderFields, List.append_assoc]
    rw [hshape, dtc_cons_not_comma (by decide),
      dtc_no_comma _ (key_render_no_comma hs'.1) _,
      dtc_render close hcl v hs'.2.1 _,
      dtc_renderFieldsRest close hcl frest hs'.2.2 _]
    cases tc with
    | false =>
      rw [show ((if false then [','] else []) ++ ('\x7d' :: r) : List Char)
          = '\x7d' :: r from rfl]
      rw [dtc_cons_not_comma (by decide)]
      simp [renderT, clearTCFor, clearFieldsFor, renderFields, List.append_assoc]
    | true =>
      rw [show ((if true then [','] else []) ++ ('\x7d' :: r) : List Char)
          = ',' :: '\x7d' :: r from rfl]
      cases hcl with
      | inl hc =>
        subst hc
        rw [dtc_comma_nonclose (by decide) (by decide),
          dtc_cons_not_comma (by decide)]
        simp [renderT, clearTCFor, clearFieldsFor, renderFields, List.append_assoc]
      | inr hc =>
        subst hc
        rw [dtc_comma_close (by decide)]
        simp [renderT, clearTCFor, clearFieldsFor, renderFields, List.append_assoc]
termination_by close hcl t hs r => sizeOf t

theorem dtc_renderItemsRest : ∀ (close : Char), (close = ']' ∨ close = '\x7d') →
    ∀ (items : List JsonT), safeItems items = true → ∀ (r : List Char),
    dropTrailingCommas close false (renderItemsRest items ++ r)
      = renderItemsRest (clearItemsFor close items)
        ++ dropTrailingCommas close false r
  | close, hcl, [], hs, r => by simp [renderItemsRest, clearItemsFor]
  | close, hcl, t :: rest, hs, r => by
    have hs' : safeT t = true ∧ safeItems rest = true := by
      simpa [safeItems, Bool.and_eq_true] using hs
    have hshape : renderItemsRest (t :: rest) ++ r
        = ',' :: (renderT t ++ (renderItemsRest rest ++ r)) := by
      simp [renderItemsRest, List.append_assoc]
    rw [hshape, dtc_comma_render hcl t _, dtc_render close hcl t hs'.1 _,
      dtc_renderItemsRest close hcl rest hs'.2 r]
    simp [renderItemsRest, clearItemsFor, List.append_assoc]
termination_by close hcl items hs r => sizeOf items

theorem dtc_renderFieldsRest : ∀ (close : Char), (close = ']' ∨ close = '\x7d') →
    ∀ (fields : List (String × JsonT)), safeFields fields = true → ∀ (r : List Char),
    dropTrailingCommas close false (renderFieldsRest fields ++ r)
      = renderFieldsRest (clearFieldsFor close fields)
        ++ dropTrailingCommas close false r
  | close, hcl, [], hs, r => by simp [renderFieldsRest, clearFieldsFor]
  | close, hcl, (k, v) :: rest, hs, r => by
    have hs' : k.data.all safeChar = true ∧ safeT v = true
        ∧ safeFields rest = true := by
      simpa [safeFields, Bool.and_eq_true, and_assoc] using hs
    have hq : (('"' : Char) == close) = false := by
      cases hcl with
      | inl hc => subst hc; decide
      | inr hc => subst hc; decide
    have hshape : renderFieldsRest ((k, v) :: rest) ++ r
        = ',' :: '"' :: ((k.data ++ ['"', ':'])
            ++ (renderT v ++ (renderFieldsRest rest ++ r))) := by
      simp [renderFieldsRest, List.append_assoc]
    rw [hshape, dtc_comma_nonclose (by decide) hq]
    have hback : ('"' :: ((k.data ++ ['"', ':'])
          ++ (renderT v ++ (renderFieldsRest rest ++ r))) : List Char)
        = ('"' :: (k.data ++ ['"', ':']))
          ++ (renderT v ++ (renderFieldsRest rest ++ r)) := by
      simp
    rw [hback, dtc_no_comma _ (key_render_no_comma hs'.1) _,
      dtc_render close hcl v hs'.2.1 _, dtc_renderFieldsRest close hcl rest hs'.2.2 r]
    simp [renderFieldsRest, clearFieldsFor, List.append_assoc]
termination_by close hcl fields hs r => sizeOf fields

end

/-! ## Clearing passes preserve safety and denotation, and kill the flags -/

mutual

theorem safeT_clear : ∀ (close : Char) (t : JsonT),
    safeT (clearTCFor close t) = safeT t
  | _, JsonT.null => rfl
  | _, JsonT.bool _ => rfl
  | _, JsonT.str _ => rfl
  | close, JsonT.arr items tc => by
    simp [clearTCFor, safeT, safeItems_clear close items]
  | close, JsonT.obj fields tc => by
    simp [clearTCFor, safeT, safeFields_clear close fields]
termination_by close t => sizeOf t

theorem safeItems_clear : ∀ (close : Char) (items : List JsonT),
    safeItems (clearItemsFor close items) = safeItems items
  | _, [] => rfl
  | close, t :: rest => by
    simp [clearItemsFor, safeItems, safeT_clear close t, safeItems_clear close rest]
termination_by close items => sizeOf items

theorem safeFields_clear : ∀ (close : Char) (fields : List (String × JsonT)),
    safeFields (clearFieldsFor close fields) = safeFields fields
  | _, [] => rfl
  | close, (k, v) :: rest => by
    simp [clearFieldsFor, safeFields, safeT_clear close v, safeFields_clear close rest]
termination_by close fields => sizeOf fields

end

mutual

theorem eraseT_clear : ∀ (close : Char) (t : JsonT),
    eraseT (clearTCFor close t) = eraseT t
  | _, JsonT.null => rfl
  | _, JsonT.bool _ => rfl
  | _, JsonT.str _ => rfl
  | close, JsonT.arr items tc => by
    simp [clearTCFor, eraseT, eraseItems_clear close items]
  | close, JsonT.obj fields tc => by
    simp [clearTCFor, eraseT, eraseFields_clear close fields]
termination_by close t => sizeOf t

theorem eraseItems_clear : ∀ (close : Char) (items : List JsonT),
    eraseItems (clearItemsFor close items) = eraseItems items
  | _, [] => rfl
  | close, t :: rest => by
    simp [clearItemsFor, eraseItems, eraseT_clear close t, eraseItems_clear close rest]
termination_by close items => sizeOf items

theorem eraseFields_clear : ∀ (close : Char) (fields : List (String × JsonT)),
    eraseFields (clearFieldsFor close fields) = eraseFields fields
  | _, [] => rfl
  | close, (k, v) :: rest => by
    simp [clearFieldsFor, eraseFields, eraseT_clear close v,
      eraseFields_clear close rest]
termination_by close fields => sizeOf fields

end

mutual

theorem hasTC_clear2 : ∀ (t : JsonT),
    hasTC (clearTCFor ']' (clearTCFor '\x7d' t)) = false
  | JsonT.null => rfl
  | JsonT.bool _ => rfl
  | JsonT.str _ => rfl
  | JsonT.arr items tc => by
    simp [clearTCFor, hasTC, hasTCItems_clear2 items]
  | JsonT.obj fields tc => by
    simp [clearTCFor, hasTC, hasTCFields_clear2 fields]
termination_by t => sizeOf t

theorem hasTCItems_clear2 : ∀ (items : List JsonT),
    hasTCItems (clearItemsFor ']' (clearItemsFor '\x7d' items)) = false
  | [] => rfl
  | t :: rest => by
    simp [clearItemsFor, hasTCItems, hasTC_clear2 t, hasTCItems_clear2 rest]
termination_by items => sizeOf items

theorem hasTCFields_clear2 : ∀ (fields : List (String × JsonT)),
    hasTCFields (clearFieldsFor ']' (clearFieldsFor '\x7d' fields)) = false
  | [] => rfl
  | (k, v) :: rest => by
    simp [clearFieldsFor, hasTCFields, hasTC_clear2 v, hasTCFields_clear2 rest]
termination_by fields => sizeOf fields

end

/-! ## The strict parser on rendered texts -/

theorem strMk_data (s : String) : String.mk s.data = s := rfl

theorem parseQuotedL_safe : ∀ (l : List Char), l.all safeChar = true →
    ∀ (rest : List Char), parseQuotedL (l ++ '"' :: rest) = some (l, rest)
  | [], _, rest => by rw [List.nil_append, parseQuotedL.eq_def]; simp
  | c :: l', h, rest => by
    have hc : safeChar c = true := List.all_eq_true.mp h c (by simp)
    have hl : l'.all safeChar = true :=
      List.all_eq_true.mpr (fun x hx => List.all_eq_true.mp h x (by simp [hx]))
    obtain ⟨hge, hq, hbs, _⟩ := safeChar_props hc
    have hlt : ¬(c.toNat < 0x20) := by omega
    rw [List.cons_append, parseQuotedL.eq_def]
    simp only [hq, hbs, Bool.false_eq_true, if_false]
    rw [if_neg hlt, parseQuotedL_safe l' hl rest]

/-! ## Round trip: the strict parser on rendered texts, and the repaired reparse -/


theorem parseVal_close : ∀ (fuel : Nat) (r : List Char),
    parseVal fuel (']' :: r) = none := by
  intro fuel r
  cases fuel with
  | zero => rfl
  | succ f => rw [parseVal.eq_def]; simp [digitChar]

theorem parseVal_render_nullL (f : Nat) (r : List Char) :
    parseVal (f + 1) (renderT JsonT.null ++ r) = some (Json.null, r) := by
  rw [show renderT JsonT.null = 'n' :: ("ull").data from rfl, List.cons_append,
    parseVal.eq_def]
  simp [isPrefixOf_append_self]

theorem parseVal_render_boolL (b : Bool) (f : Nat) (r : List Char) :
    parseVal (f + 1) (renderT (JsonT.bool b) ++ r) = some (Json.bool b, r) := by
  cases b with
  | true =>
    rw [show renderT (JsonT.bool true) = 't' :: ("rue").data from rfl,
      List.cons_append, parseVal.eq_def]
    simp [isPrefixOf_append_self]
  | false =>
    rw [show renderT (JsonT.bool false) = 'f' :: ("alse").data from rfl,
      List.cons_append, parseVal.eq_def]
    simp [isPrefixOf_append_self]

theorem parseVal_render_strL (s : String) (hs : s.data.all safeChar = true)
    (f : Nat) (r : List Char) :
    parseVal (f + 1) (renderT (JsonT.str s) ++ r) = some (Json.str s, r) := by
  rw [show renderT (JsonT.str s) = '"' :: (s.data ++ ['"']) from rfl,
    List.cons_append, List.append_assoc, List.singleton_append, parseVal.eq_def]
  simp [parseQuotedL_safe s.data hs r]

theorem parseVal_arr_nil (f : Nat) (r : List Char) :
    parseVal (f + 1) ('[' :: ']' :: r) = some (Json.arr [], r) := by
  rw [parseVal.eq_def]
  simp [skipJsonWs, jsonWs]

theorem parseVal_obj_nil (f : Nat) (r : List Char) :
    parseVal (f + 1) ('\x7b' :: '\x7d' :: r) = some (Json.obj [], r) := by
  rw [parseVal.eq_def]
  simp [skipJsonWs, jsonWs]

theorem parseVal_bracket_cons (f : Nat) (c : Char) (cs : List Char)
    (hne : (c == ']') = false) (hw : jsonWs c = false) :
    parseVal (f + 1) ('[' :: c :: cs) =
      (match parseVal f (c :: cs) with
      | none => none
      | some (v, r2) =>
        match parseArrRest f r2 with
        | none => none
        | some (vs, r3) => some (Json.arr (v :: vs), r3)) := by
  rw [parseVal.eq_def]
  simp only [skipJsonWs, List.dropWhile_cons, hw, Bool.false_eq_true, if_false]
  split
  · next r2 heq =>
    rw [List.cons.injEq] at heq
    exact absurd (beq_iff_eq.mpr heq.1) (by simp [hne])
  · rfl

theorem parseVal_obj_key (f : Nat) (k : String)
    (hk : k.data.all safeChar = true) (Y : List Char) :
    parseVal (f + 1) ('\x7b' :: '"' :: (k.data ++ '"' :: ':' :: Y)) =
      (match parseVal f (skipJsonWs Y) with
       | none => none
       | some (v, r5) =>
         match parseObjRest f r5 with
         | none => none
         | some (fs, r6) => some (Json.obj ((String.mk k.data, v) :: fs), r6)) := by
  rw [parseVal.eq_def]
  simp [skipJsonWs, jsonWs, parseQuotedL_safe k.data hk]

theorem parseArrRest_close (f : Nat) (r : List Char) :
    parseArrRest (f + 1) (']' :: r) = some ([], r) := by
  rw [parseArrRest.eq_def]
  simp [skipJsonWs, jsonWs]

theorem parseArrRest_comma (f : Nat) (l : List Char) :
    parseArrRest (f + 1) (',' :: l) =
      (match parseVal f (skipJsonWs l) with
       | none => none
       | some (v, r2) =>
         match parseArrRest f r2 with
         | none => none
         | some (vs, r3) => some (v :: vs, r3)) := by
  rw [parseArrRest.eq_def]
  simp [skipJsonWs, jsonWs]

theorem parseObjRest_close (f : Nat) (r : List Char) :
    parseObjRest (f + 1) ('\x7d' :: r) = some ([], r) := by
  rw [parseObjRest.eq_def]
  simp [skipJsonWs, jsonWs]

theorem parseObjRest_comma_close (f : Nat) (r : List Char) :
    parseObjRest (f + 1) (',' :: '\x7d' :: r) = none := by
  rw [parseObjRest.eq_def]
  simp [skipJsonWs, jsonWs]

theorem parseObjRest_comma_key (f : Nat) (k : String)
    (hk : k.data.all safeChar = true) (Y : List Char) :
    parseObjRest (f + 1) (',' :: '"' :: (k.data ++ '"' :: ':' :: Y)) =
      (match parseVal f (skipJsonWs Y) with
       | none => none
       | some (v, r5) =>
         match parseObjRest f r5 with
         | none => none
         | some (fs, r6) => some ((String.mk k.data, v) :: fs, r6)) := by
  rw [parseObjRest.eq_def]
  simp [skipJsonWs, jsonWs, parseQuotedL_safe k.data hk]

theorem renderT_arr_cons_len (v : JsonT) (vs : List JsonT) (tc : Bool) :
    (renderT v).length + (renderItemsRest vs).length + 2
      ≤ (renderT (JsonT.arr (v :: vs) tc)).length := by
  cases tc <;> simp [renderT, renderItems] <;> omega

theorem renderT_obj_cons_len (k : String) (v : JsonT)
    (fs : List (String × JsonT)) (tc : Bool) :
    k.data.length + ((renderT v).length + ((renderFieldsRest fs).length + 5))
      ≤ (renderT (JsonT.obj ((k, v) :: fs) tc)).length := by
  cases tc <;> simp [renderT, renderFields] <;> omega

theorem renderItemsRest_cons_len (v : JsonT) (vs : List JsonT) :
    (renderT v).length + (renderItemsRest vs).length + 1
      ≤ (renderItemsRest (v :: vs)).length := by
  simp [renderItemsRest]

theorem renderFieldsRest_cons_len (k : String) (v : JsonT)
    (fs : List (String × JsonT)) :
    k.data.length + ((renderT v).length + ((renderFieldsRest fs).length + 4))
      ≤ (renderFieldsRest ((k, v) :: fs)).length := by
  simp [renderFieldsRest]
  omega

mutual

theorem parseVal_render : ∀ (t : JsonT), safeT t = true → ∀ (fuel : Nat),
    (renderT t).length < fuel → ∀ (rest : List Char),
    parseVal fuel (renderT t ++ rest)
      = if hasTC t then none else some (eraseT t, rest)
  | JsonT.null, _, fuel, hf, rest => by
    cases fuel with
    | zero => exact absurd hf (Nat.not_lt_zero _)
    | succ f => simpa [hasTC, eraseT] using parseVal_render_nullL f rest
  | JsonT.bool b, _, fuel, hf, rest => by
    cases fuel with
    | zero => exact absurd hf (Nat.not_lt_zero _)
    | succ f => simpa [hasTC, eraseT] using parseVal_render_boolL b f rest
  | JsonT.str s, hs, fuel, hf, rest => by
    cases fuel with
    | zero => exact absurd hf (Nat.not_lt_zero _)
    | succ f =>
      have hsc : s.data.all safeChar = true := by simpa [safeT] using hs
      simpa [hasTC, eraseT] using parseVal_render_strL s hsc f rest
  | JsonT.arr [] tc, _, fuel, hf, rest => by
    cases fuel with
    | zero => exact absurd hf (Nat.not_lt_zero _)
    | succ f =>
      have hsh : renderT (JsonT.arr [] tc) ++ rest = '[' :: ']' :: rest := by
        simp [renderT, renderItems]
      rw [hsh, parseVal_arr_nil]
      simp [hasTC, hasTCItems, eraseT, eraseItems]
  | JsonT.arr (v :: vs) tc, hs, fuel, hf, rest => by
    cases fuel with
    | zero => exact absurd hf (Nat.not_lt_zero _)
    | succ f =>
      have hs' : safeT v = true ∧ safeItems vs = true := by
        simpa [safeT, safeItems, Bool.and_eq_true] using hs
      have hlen := renderT_arr_cons_len v vs tc
      have hfv : (renderT v).length < f := by omega
      have hfr : (renderItemsRest vs).length + 1 < f := by omega
      have hsh : renderT (JsonT.arr (v :: vs) tc) ++ rest
          = '[' :: (renderT v ++ (renderItemsRest vs
              ++ ((if tc then [','] else []) ++ (']' :: rest)))) := by
        cases tc <;> simp [renderT, renderItems, List.append_assoc]
      rw [hsh]
      obtain ⟨c, cs, hvh, hpw, hjw, hcm, hcl, hcb, hne⟩ := renderT_head_props v
      rw [hvh, List.cons_append, parseVal_bracket_cons f c _ hcl hjw,
        ← List.cons_append, ← hvh, parseVal_render v hs'.1 f hfv _]
      cases hv : hasTC v with
      | true => simp [hv, hasTC, hasTCItems]
      | false =>
        simp only [hv, Bool.false_eq_true, if_false]
        rw [parseArrRest_render vs hs'.2 tc f hfr rest]
        cases htc : (tc || hasTCItems vs) with
        | true => simp [htc, hasTC, hasTCItems, hv]
        | false => simp [htc, hasTC, hasTCItems, hv, eraseT, eraseItems]
  | JsonT.obj [] tc, _, fuel, hf, rest => by
    cases fuel with
    | zero => exact absurd hf (Nat.not_lt_zero _)
    | succ f =>
      have hsh : renderT (JsonT.obj [] tc) ++ rest = '\x7b' :: '\x7d' :: rest := by
        simp [renderT, renderFields]
      rw [hsh, parseVal_obj_nil]
      simp [hasTC, hasTCFields, eraseT, eraseFields]
  | JsonT.obj ((k, v) :: fs) tc, hs, fuel, hf, rest => by
    cases fuel with
    | zero => exact absurd hf (Nat.not_lt_zero _)
    | succ f =>
      have hs' : k.data.all safeChar = true ∧ safeT v = true
          ∧ safeFields fs = true := by
        simpa [safeT, safeFields, Bool.and_eq_true, and_assoc] using hs
      have hlen := renderT_obj_cons_len k v fs tc
      have hfv : (renderT v).length < f := by omega
      have hfo : (renderFieldsRest fs).length + 1 < f := by omega
      have hsh : renderT (JsonT.obj ((k, v) :: fs) tc) ++ rest
          = '\x7b' :: '"' :: (k.data ++ '"' :: ':' :: (renderT v
              ++ (renderFieldsRest fs
                ++ ((if tc then [','] else []) ++ ('\x7d' :: rest))))) := by
        cases tc <;> simp [renderT, renderFields, List.append_assoc]
      rw [hsh, parseVal_obj_key f k hs'.1 _, skipJsonWs_render v _,
        parseVal_render v hs'.2.1 f hfv _]
      cases hv : hasTC v with
      | true => simp [hv, hasTC, hasTCFields]
      | false =>
        simp only [hv, Bool.false_eq_true, if_false]
        rw [parseObjRest_render fs hs'.2.2 tc f hfo rest]
        cases htc : (tc || hasTCFields fs) with
        | true => simp [htc, hasTC, hasTCFields, hv]
        | false => simp [htc, hasTC, hasTCFields, hv, eraseT, eraseFields]
termination_by t hs fuel hf rest => sizeOf t

theorem parseArrRest_render : ∀ (items : List JsonT), safeItems items = true →
    ∀ (tc : Bool) (fuel : Nat), (renderItemsRest items).length + 1 < fuel →
    ∀ (rest : List Char),
    parseArrRest fuel (renderItemsRest items
        ++ ((if tc then [','] else []) ++ (']' :: rest)))
      = if tc || hasTCItems items then none else some (eraseItems items, rest)
  | [], _, tc, fuel, hf, rest => by
    cases fuel with
    | zero => exact absurd hf (Nat.not_lt_zero _)
    | succ f =>
      cases tc with
      | false =>
        have hsh : renderItemsRest ([] : List JsonT)
            ++ ((if false then [','] else []) ++ (']' :: rest))
            = ']' :: rest := by simp [renderItemsRest]
        rw [hsh, parseArrRest_close]
        simp [hasTCItems, eraseItems]
      | true =>
        have hsh : renderItemsRest ([] : List JsonT)
            ++ ((if true then [','] else []) ++ (']' :: rest))
            = ',' :: ']' :: rest := by simp [renderItemsRest]
        rw [hsh, parseArrRest_comma]
        have hsk : skipJsonWs (']' :: rest) = ']' :: rest := by
          simp [skipJsonWs, jsonWs]
        rw [hsk, parseVal_close]
        simp
  | v :: vs, hs, tc, fuel, hf, rest => by
    cases fuel with
    | zero => exact absurd hf (Nat.not_lt_zero _)
    | succ f =>
      have hs' : safeT v = true ∧ safeItems vs = true := by
        simpa [safeItems, Bool.and_eq_true] using hs
      have hlen := renderItemsRest_cons_len v vs
      have hfv : (renderT v).length < f := by omega
      have hfr : (renderItemsRest vs).length + 1 < f := by omega
      have hsh : renderItemsRest (v :: vs)
            ++ ((if tc then [','] else []) ++ (']' :: rest))
          = ',' :: (renderT v ++ (renderItemsRest vs
              ++ ((if tc then [','] else []) ++ (']' :: rest)))) := by
        simp [renderItemsRest, List.append_assoc]
      rw [hsh, parseArrRest_comma, skipJsonWs_render v _,
        parseVal_render v hs'.1 f hfv _]
      cases hv : hasTC v with
      | true => simp [hv, hasTCItems]
      | false =>
        simp only [hv, Bool.false_eq_true, if_false]
        rw [parseArrRest_render vs hs'.2 tc f hfr rest]
        cases htc : (tc || hasTCItems vs) with
        | true => simp [htc, hasTCItems, hv]
        | false => simp [htc, hasTCItems, hv, eraseItems]
termination_by items hs tc fuel hf rest => sizeOf items

theorem parseObjRest_render : ∀ (fields : List (String × JsonT)),
    safeFields fields = true →
    ∀ (tc : Bool) (fuel : Nat), (renderFieldsRest fields).length + 1 < fuel →
    ∀ (rest : List Char),
    parseObjRest fuel (renderFieldsRest fields
        ++ ((if tc then [','] else []) ++ ('\x7d' :: rest)))
      = if tc || hasTCFields fields then none
        else some (eraseFields fields, rest)
  | [], _, tc, fuel, hf, rest => by
    cases fuel with
    | zero => exact absurd hf (Nat.not_lt_zero _)
    | succ f =>
      cases tc with
      | false =>
        have hsh : renderFieldsRest ([] : List (String × JsonT))
            ++ ((if false then [','] else []) ++ ('\x7d' :: rest))
            = '\x7d' :: rest := by simp [renderFieldsRest]
        rw [hsh, parseObjRest_close]
        simp [hasTCFields, eraseFields]
      | true =>
        have hsh : renderFieldsRest ([] : List (String × JsonT))
            ++ ((if true then [','] else []) ++ ('\x7d' :: rest))
            = ',' :: '\x7d' :: rest := by simp [renderFieldsRest]
        rw [hsh, parseObjRest_comma_close]
        simp
  | (k, v) :: fs, hs, tc, fuel, hf, rest => by
    cases fuel with
    | zero => exact absurd hf (Nat.not_lt_zero _)
    | succ f =>
      have hs' : k.data.all safeChar = true ∧ safeT v = true
          ∧ safeFields fs = true := by
        simpa [safeFields, Bool.and_eq_true, and_assoc] using hs
      have hlen := renderFieldsRest_cons_len k v fs
      have hfv : (renderT v).length < f := by omega
      have hfo : (renderFieldsRest fs).length + 1 < f := by omega
      have hsh : renderFieldsRest ((k, v) :: fs)
            ++ ((if tc then [','] else []) ++ ('\x7d' :: rest))
          = ',' :: '"' :: (k.data ++ '"' :: ':' :: (renderT v
              ++ (renderFieldsRest fs
                ++ ((if tc then [','] else []) ++ ('\x7d' :: rest))))) := by
        simp [renderFieldsRest, List.append_assoc]
      rw [hsh, parseObjRest_comma_key f k hs'.1 _, skipJsonWs_render v _,
        parseVal_render v hs'.2.1 f hfv _]
      cases hv : hasTC v with
      | true => simp [hv, hasTCFields]
      | false =>
        simp only [hv, Bool.false_eq_true, if_false]
        rw [parseObjRest_render fs hs'.2.2 tc f hfo rest]
        cases htc : (tc || hasTCFields fs) with
        | true => simp [htc, hasTCFields, hv]
        | false => simp [htc, hasTCFields, hv, eraseFields]
termination_by fields hs tc fuel hf rest => sizeOf fields

end

theorem loadsL_render (t : JsonT) (hs : safeT t = true) :
    loadsL (renderT t) = if hasTC t then none else some (eraseT t) := by
  have h0 : skipJsonWs (renderT t) = renderT t := by
    simpa using skipJsonWs_render t []
  have hP := parseVal_render t hs ((renderT t).length + 1) (Nat.lt_succ_self _) []
  rw [List.append_nil] at hP
  simp only [loadsL, h0, hP]
  cases htc : hasTC t with
  | true => simp
  | false => simp [skipJsonWs]

theorem pyStripL_render (t : JsonT) : pyStripL (renderT t) = renderT t := by
  obtain ⟨c, cs, hh, hpw, _⟩ := renderT_head_props t
  obtain ⟨l, d, hl, hdw⟩ := renderT_last t
  unfold pyStripL
  rw [hh, List.dropWhile_cons_of_neg (by simp [hpw]), ← hh, hl]
  simp [hdw]

theorem pyRepair_render (t : JsonT) (hs : safeT t = true) :
    pyRepair (renderT t) = renderT (clearTCFor ']' (clearTCFor '\x7d' t)) := by
  unfold pyRepair
  have h1 := dtc_render '\x7d' (Or.inr rfl) t hs []
  rw [List.append_nil] at h1
  have hs2 : safeT (clearTCFor '\x7d' t) = true := by
    rw [safeT_clear]; exact hs
  have h2 := dtc_render ']' (Or.inl rfl) (clearTCFor '\x7d' t) hs2 []
  rw [List.append_nil] at h2
  rw [h1]
  simp only [dropTrailingCommas, List.append_nil]
  rw [h2]
  simp [dropTrailingCommas]

/-- C5: for every completion text that is valid JSON except for trailing
commas before closing braces or brackets (a rendered `JsonT` whose strings
stay clear of quote, backslash, comma and control characters), the repair
pass (`,\s*}` then `,\s*]`) removes exactly the trailing commas, and the
retried strict parse succeeds, yielding the document the text denotes
rather than the extraction-error sentinel. -/
theorem trailing_comma_repair (t : JsonT) (hs : safeT t = true) :
    pyRepair (renderT t) = renderT (clearTCFor ']' (clearTCFor '\x7d' t))
      ∧ parseAiResponse (String.mk (renderT t)) = eraseT t := by
  refine ⟨pyRepair_render t hs, ?_⟩
  simp only [parseAiResponse]
  rw [pyStripL_render t, loadsL_render t hs]
  cases htc : hasTC t with
  | false => simp
  | true =>
    simp only [if_true]
    rw [pyRepair_render t hs]
    have hs2 : safeT (clearTCFor ']' (clearTCFor '\x7d' t)) = true := by
      rw [safeT_clear, safeT_clear]; exact hs
    rw [loadsL_render _ hs2, hasTC_clear2]
    simp [eraseT_clear]

theorem trailing_comma_repair_witness :
    safeT (JsonT.obj [("product_family", JsonT.str "X"),
        ("products", JsonT.arr [] false)] true) = true
    ∧ parseAiResponse "\x7b\"product_family\":\"X\",\"products\":[],\x7d"
      = Json.obj [("product_family", Json.str "X"), ("products", Json.arr [])] := by
  refine ⟨rfl, ?_⟩
  have h := (trailing_comma_repair (JsonT.obj [("product_family", JsonT.str "X"),
      ("products", JsonT.arr [] false)] true) rfl).2
  have hstr : String.mk (renderT (JsonT.obj [("product_family", JsonT.str "X"),
      ("products", JsonT.arr [] false)] true))
      = "\x7b\"product_family\":\"X\",\"products\":[],\x7d" := rfl
  rw [hstr] at h
  rw [h]
  rfl

end PdfExtractor
